import Mathlib

/-!
# Diffusion-reaction particle dynamics (SPHinXsys)

Shallow embedding of `particle_dynamics_diffusion_reaction.hpp`.

* `Real` is an arbitrary field `R` (exact arithmetic); the literals `2.0` and `0.5`
  are `2` and `1 / 2`.
* A `StdLargeVec<Real>` of the owning body is a function `Fin np → R`, where `np`
  is the number of particles; a vector of such arrays is indexed by `Nat`.
* Pointer vectors into the species store (`diffusion_species_`, `gradient_species_`)
  are index maps into `all_species_`, so that the gradient source of a diffusion
  may be its own diffusive field or any other field of the store.
* A member function that mutates the particle data is a function from the data
  before the call to the data after it.
-/

set_option linter.unusedSectionVars false

namespace SPH

/-! ## Loops -/

/-- Counting loop `for (size_t k = 0; k != n; ++k) body(k)`: the iterations
`0, 1, ..., n - 1` are run in this order. -/
def forLoop {σ : Type} : Nat → (Nat → σ → σ) → σ → σ
  | 0, _, s => s
  | n + 1, body, s => body n (forLoop n body s)

/-- Descending loop `for (size_t k = n; k != 0; --k) { size_t m = k - 1; body(m) }`:
the iterations `m = n - 1, ..., 1, 0` are run in this order. -/
def forLoopDown {σ : Type} : Nat → (Nat → σ → σ) → σ → σ
  | 0, _, s => s
  | k + 1, body, s => forLoopDown k body (body k s)

/-! ## Data model -/

/-- Spatial vector `Vecd` of dimension `d`. -/
abbrev Vecd (R : Type) (d : Nat) := Fin d → R

/-- Scalar product `a.dot(b)`. -/
def Vecd.dot {R : Type} [Field R] {d : Nat} (a b : Vecd R d) : R :=
  ∑ k, a k * b k

/-- Neighbour record arrays of one particle (`Neighborhood`); `J` is the index
type of the particles the records point to. Only the first `current_size_`
entries are in use. -/
structure Neighborhood (R : Type) (J : Type) (d : Nat) where
  current_size_ : Nat
  j_ : Nat → J
  dW_ijV_j_ : Nat → R
  r_ij_ : Nat → R
  e_ij_ : Nat → Vecd R d

/-- Mutable per-particle data of the owning body: the species store
`all_species_`, the change-rate buffers `diffusion_dt_` (one per diffusion) and
the snapshot buffers `diffusion_species_s_` of the RK2 wrapper. -/
structure DiffusionReactionParticles (R : Type) (np : Nat) where
  all_species_ : Nat → Fin np → R
  diffusion_dt_ : Nat → Fin np → R
  diffusion_species_s_ : Nat → Fin np → R

/-- Read-only members of `BaseDiffusionRelaxation`: the number of diffusions
`all_diffusions_.size()`, for every diffusion `m` the index in `all_species_` of
the array `diffusion_species_[m]` points to and of the array `gradient_species_[m]`
points to, and the two external callbacks (material model and kernel gradient),
which take particle indices as `size_t`. The change-rate buffer
`diffusion_dt_[m]` is registered under the name of the diffusive species of `m`
followed by `ChangeRate`. -/
structure BaseDiffusionRelaxation (R : Type) (d : Nat) where
  all_diffusions_size : Nat
  diffusion_species_indexes : Nat → Nat
  gradient_species_indexes : Nat → Nat
  getInterParticleDiffusionCoff : Nat → Nat → Nat → Vecd R d → R
  getKernelGradient : Nat → Nat → R → Vecd R d → Vecd R d
  /-- Modelled from the spec: the material model that sets up the diffusions and
  the registry that hands out the buffers by name are not part of this file. By
  section 3 there is one change-rate buffer and one snapshot per diffusive
  species: different diffusions feed different fields of the species store, and
  so own different buffers `diffusion_dt_[m]`. -/
  diffusion_species_distinct : ∀ m m', m < all_diffusions_size → m' < all_diffusions_size →
    diffusion_species_indexes m = diffusion_species_indexes m' → m = m'

/-- Class `DiffusionRelaxationInner`: the base members and the inner neighbour
configuration. -/
structure DiffusionRelaxationInner (R : Type) (np d : Nat) extends
    BaseDiffusionRelaxation R d where
  inner_configuration_ : Fin np → Neighborhood R (Fin np) d

/-- Array write `(*a[m])[i] = v`. -/
def writeAt {R : Type} {np : Nat} (a : Nat → Fin np → R) (m : Nat) (i : Fin np) (v : R) :
    Nat → Fin np → R :=
  Function.update a m (Function.update (a m) i v)

/-- Loop body that rewrites the change rate of diffusion `m` at particle `i`
from the species store and the old value of that entry. -/
def rateBody {R : Type} {np : Nat} (i : Fin np) (g : Nat → (Nat → Fin np → R) → R → R)
    (m : Nat) (s : DiffusionReactionParticles R np) : DiffusionReactionParticles R np :=
  { s with diffusion_dt_ := writeAt s.diffusion_dt_ m i (g m s.all_species_ (s.diffusion_dt_ m i)) }

/-- Particle data after the write `(*all_species_[l])[i] = v`. -/
def setSpecies {R : Type} {np : Nat} (s : DiffusionReactionParticles R np) (l : Nat)
    (i : Fin np) (v : R) : DiffusionReactionParticles R np :=
  { s with all_species_ := writeAt s.all_species_ l i v }

/-- Particle data after the write `diffusion_species_s_[m][i] = v`. -/
def setSnapshot {R : Type} {np : Nat} (s : DiffusionReactionParticles R np) (m : Nat)
    (i : Fin np) (v : R) : DiffusionReactionParticles R np :=
  { s with diffusion_species_s_ := writeAt s.diffusion_species_s_ m i v }

section Inner

variable {R : Type} [Field R] {np d : Nat}

/-! ## DiffusionRelaxationInner -/

/-- Member function `DiffusionRelaxationInner::initializeDiffusionChangeRate` -/
def DiffusionRelaxationInner.initializeDiffusionChangeRate
    (c : DiffusionRelaxationInner R np d) (particle_i : Fin np)
    (s : DiffusionReactionParticles R np) : DiffusionReactionParticles R np :=
  forLoop c.all_diffusions_size
    (fun m s => { s with diffusion_dt_ := writeAt s.diffusion_dt_ m particle_i 0 }) s

/-- Member function `DiffusionRelaxationInner::getDiffusionChangeRate` -/
def DiffusionRelaxationInner.getDiffusionChangeRate
    (c : DiffusionRelaxationInner R np d) (particle_i particle_j : Fin np)
    (e_ij : Vecd R d) (surface_area_ij : R)
    (s : DiffusionReactionParticles R np) : DiffusionReactionParticles R np :=
  forLoop c.all_diffusions_size
    (fun m s =>
      let diff_coff_ij := c.getInterParticleDiffusionCoff m particle_i particle_j e_ij
      let gradient_species := s.all_species_ (c.gradient_species_indexes m)
      let phi_ij := gradient_species particle_i - gradient_species particle_j
      let rate := s.diffusion_dt_ m particle_i + diff_coff_ij * phi_ij * surface_area_ij
      { s with diffusion_dt_ := writeAt s.diffusion_dt_ m particle_i rate }) s

/-- Member function `DiffusionRelaxationInner::updateSpeciesDiffusion` -/
def DiffusionRelaxationInner.updateSpeciesDiffusion
    (c : DiffusionRelaxationInner R np d) (particle_i : Fin np) (dt : R)
    (s : DiffusionReactionParticles R np) : DiffusionReactionParticles R np :=
  forLoop c.all_diffusions_size
    (fun m s =>
      let l := c.diffusion_species_indexes m
      let value := s.all_species_ l particle_i + dt * s.diffusion_dt_ m particle_i
      { s with all_species_ := writeAt s.all_species_ l particle_i value }) s

/-- Member function `DiffusionRelaxationInner::interaction` -/
def DiffusionRelaxationInner.interaction
    (c : DiffusionRelaxationInner R np d) (index_i : Fin np) (_dt : R)
    (s : DiffusionReactionParticles R np) : DiffusionReactionParticles R np :=
  let inner_neighborhood := c.inner_configuration_ index_i
  forLoop inner_neighborhood.current_size_
    (fun n s =>
      let index_j := inner_neighborhood.j_ n
      let dW_ijV_j_ := inner_neighborhood.dW_ijV_j_ n
      let r_ij_ := inner_neighborhood.r_ij_ n
      let e_ij := inner_neighborhood.e_ij_ n
      let grad_ijV_j := c.getKernelGradient index_i index_j dW_ijV_j_ e_ij
      let area_ij := 2 * Vecd.dot grad_ijV_j e_ij / r_ij_
      c.getDiffusionChangeRate index_i index_j e_ij area_ij s)
    (c.initializeDiffusionChangeRate index_i s)

/-- Member function `DiffusionRelaxationInner::update` -/
def DiffusionRelaxationInner.update
    (c : DiffusionRelaxationInner R np d) (index_i : Fin np) (dt : R)
    (s : DiffusionReactionParticles R np) : DiffusionReactionParticles R np :=
  c.updateSpeciesDiffusion index_i dt s

/-- Modelled from the spec: the particle loop of the dynamics wrappers
(`SimpleDynamics`, `InteractionWithUpdate`), which are not part of this file. It
runs the per-particle body once for every particle of the body (section 5:
data-parallel over particle index); the particles are visited in ascending
order here. -/
def particle_for {σ : Type} (np : Nat) (body : Fin np → σ → σ) (s : σ) : σ :=
  (List.finRange np).foldl (fun s i => body i s) s

/-- Modelled from the spec: `InteractionWithUpdate<DiffusionRelaxationInner>::exec`,
the plain forward-Euler step of section 4.1: the flux pass `interaction` over
all particles completes, then the commit pass `update` runs over all particles
(section 5, barrier between the two phases). -/
def DiffusionRelaxationInner.exec
    (c : DiffusionRelaxationInner R np d) (dt : R)
    (s : DiffusionReactionParticles R np) : DiffusionReactionParticles R np :=
  particle_for np (fun i s => c.update i dt s)
    (particle_for np (fun i s => c.interaction i dt s) s)

/-! ## RK2 wrapper over an inner first stage -/

/-- Member function `InitializationRK::update` -/
def InitializationRK.update
    (c : DiffusionRelaxationInner R np d) (index_i : Fin np) (_dt : R)
    (s : DiffusionReactionParticles R np) : DiffusionReactionParticles R np :=
  forLoop c.all_diffusions_size
    (fun m s =>
      let value := s.all_species_ (c.diffusion_species_indexes m) index_i
      { s with diffusion_species_s_ := writeAt s.diffusion_species_s_ m index_i value }) s

/-- Member function `SecondStageRK2::updateSpeciesDiffusion` -/
def SecondStageRK2.updateSpeciesDiffusion
    (c : DiffusionRelaxationInner R np d) (particle_i : Fin np) (dt : R)
    (s : DiffusionReactionParticles R np) : DiffusionReactionParticles R np :=
  forLoop c.all_diffusions_size
    (fun m s =>
      let l := c.diffusion_species_indexes m
      let value := 1 / 2 * s.diffusion_species_s_ m particle_i
        + 1 / 2 * (s.all_species_ l particle_i + dt * s.diffusion_dt_ m particle_i)
      { s with all_species_ := writeAt s.all_species_ l particle_i value }) s

/-- Modelled from the spec: `InteractionWithUpdate<SecondStageRK2<...>>::exec`.
The second stage derives from the first stage type: its flux pass is the
inherited `interaction` (section 4.4, one more neighbour pass at the
intermediate state), its commit pass is the overriding
`SecondStageRK2::updateSpeciesDiffusion`. -/
def SecondStageRK2.exec
    (c : DiffusionRelaxationInner R np d) (dt : R)
    (s : DiffusionReactionParticles R np) : DiffusionReactionParticles R np :=
  particle_for np (fun i s => SecondStageRK2.updateSpeciesDiffusion c i dt s)
    (particle_for np (fun i s => c.interaction i dt s) s)

/-- Member function `DiffusionRelaxationRK2::exec`: `rk2_initialization_.exec()` (the snapshot
pass over all particles, with the default time step `0`), then
`rk2_1st_stage_.exec(dt)`, then `rk2_2nd_stage_.exec(dt)`. -/
def DiffusionRelaxationRK2.exec
    (c : DiffusionRelaxationInner R np d) (dt : R)
    (s : DiffusionReactionParticles R np) : DiffusionReactionParticles R np :=
  let s0 := particle_for np (fun i s => InitializationRK.update c i 0 s) s
  let s1 := c.exec dt s0
  SecondStageRK2.exec c dt s1

/-- The flux term the `n`-th neighbour record of particle `i` adds to the
change rate of diffusion `m`, read off a species store:
`D_m(i, j_n, e_n) * (g_m[i] - g_m[j_n]) * 2 * (gradKernel . e_n) / r_n`. -/
def DiffusionRelaxationInner.pairFlux (c : DiffusionRelaxationInner R np d)
    (species : Nat → Fin np → R) (m : Nat) (i : Fin np) (n : Nat) : R :=
  let nb := c.inner_configuration_ i
  c.getInterParticleDiffusionCoff m i (nb.j_ n) (nb.e_ij_ n)
    * (species (c.gradient_species_indexes m) i - species (c.gradient_species_indexes m) (nb.j_ n))
    * (2 * Vecd.dot (c.getKernelGradient i (nb.j_ n) (nb.dW_ijV_j_ n) (nb.e_ij_ n)) (nb.e_ij_ n)
        / nb.r_ij_ n)

/-- Contact area of the `n`-th neighbour record of particle `i`:
`area_ij = 2 * (grad_ijV_j . e_ij) / r_ij`. -/
def DiffusionRelaxationInner.area (c : DiffusionRelaxationInner R np d) (i : Fin np) (n : Nat) :
    R :=
  let nb := c.inner_configuration_ i
  2 * Vecd.dot (c.getKernelGradient i (nb.j_ n) (nb.dW_ijV_j_ n) (nb.e_ij_ n)) (nb.e_ij_ n)
    / nb.r_ij_ n

/-- The flux sum of diffusion `m` as an operator `L` on a single field `u`:
`(L u)_i` is the sum over the neighbour records in use of `i` of
`D_m(i, j_n, e_n) * (u_i - u_{j_n}) * area_ij`. -/
def DiffusionRelaxationInner.fluxOperator (c : DiffusionRelaxationInner R np d) (m : Nat)
    (u : Fin np → R) (i : Fin np) : R :=
  ∑ n in Finset.range (c.inner_configuration_ i).current_size_,
    c.getInterParticleDiffusionCoff m i ((c.inner_configuration_ i).j_ n)
        ((c.inner_configuration_ i).e_ij_ n)
      * (u i - u ((c.inner_configuration_ i).j_ n)) * c.area i n

/-- Sum of the flux terms of the neighbour records in use of particle `i`. -/
def DiffusionRelaxationInner.changeRate (c : DiffusionRelaxationInner R np d)
    (species : Nat → Fin np → R) (m : Nat) (i : Fin np) : R :=
  ∑ n in Finset.range (c.inner_configuration_ i).current_size_, c.pairFlux species m i n

end Inner

section Contact

variable {R : Type} [Field R] {np d : Nat}

/-! ## Contact operators -/

/-- Loop with an abort: `for (size_t k = 0; k != n; ++k) body(k)` where the body
may terminate the process (`none`); no later iteration runs then. -/
def forLoopM {σ : Type} : Nat → (Nat → σ → Option σ) → σ → Option σ
  | 0, _, s => some s
  | n + 1, body, s => (forLoopM n body s).bind (body n)

/-- What the constructor of `BaseDiffusionRelaxationContact` reads: the species
names of the owning body, `gradient_species_index_` of every diffusion, the
number of contact bodies and, for contact body `k`, its species index map (a
`std::map` from names to indices; `none` is `find(...) == end()`). -/
structure ContactSetup where
  all_species_names : Nat → String
  all_diffusions_size : Nat
  gradient_species_index_ : Nat → Nat
  contact_particles_size : Nat
  AllSpeciesIndexMap : Nat → String → Option Nat

/-- Constructor body of `BaseDiffusionRelaxationContact`: the result is the
table `contact_gradient_species_names_` (entry `k` is the vector of contact
body `k`), or `none` when `exit(1)` is reached. -/
def BaseDiffusionRelaxationContact.construct (p : ContactSetup) : Option (Nat → List String) :=
  forLoopM p.all_diffusions_size
    (fun m names =>
      let l := p.gradient_species_index_ m
      let inner_species_name_m := p.all_species_names l
      forLoopM p.contact_particles_size
        (fun k names =>
          let all_species_map_k := p.AllSpeciesIndexMap k
          if (all_species_map_k inner_species_name_m).isSome then
            some (Function.update names k (names k ++ [inner_species_name_m]))
          else
            none) names)
    (fun _ => [])

/-- Constructor body of `DiffusionRelaxationDirichlet`, run after the base
constructor has left the table `contact_gradient_species_names_`. The result is
the table `contact_gradient_species_`, an entry being the index in the species
store of contact body `k` of the array the stored pointer refers to. The read
`contact_gradient_species_names_[k][m]` past the end of the vector has no
defined result and gives `none`; `operator[]` of the copied map yields the
stored index, and `0` for a name that is not a key. -/
def DiffusionRelaxationDirichlet.construct (p : ContactSetup)
    (contact_gradient_species_names_ : Nat → List String) : Option (Nat → List Nat) :=
  forLoopM p.all_diffusions_size
    (fun m table =>
      forLoopM p.contact_particles_size
        (fun k table =>
          ((contact_gradient_species_names_ k)[m]?).map
            (fun contact_species_names_k_m =>
              let all_species_map_k := p.AllSpeciesIndexMap k
              let contact_species_index_k_m :=
                (all_species_map_k contact_species_names_k_m).getD 0
              Function.update table k (table k ++ [contact_species_index_k_m])))
        table)
    (fun _ => [])

/-- Class `DiffusionRelaxationDirichlet`: the base members, the contact neighbour
configurations (one per contact body, records point to particles of that body)
and, for contact body `k` and diffusion `m`, the index in the species store of
body `k` of the array `contact_gradient_species_[k][m]` points to. -/
structure DiffusionRelaxationDirichlet (R : Type) (np d : Nat) extends
    BaseDiffusionRelaxation R d where
  contact_configuration_size : Nat
  contact_configuration_ : Nat → Fin np → Neighborhood R Nat d
  contact_gradient_species_ : Nat → Nat → Nat

/-- Mutable data a contact operator can reach: the particle data of the owning
body and the species store `all_species_` of every contact body. -/
structure ContactData (R : Type) (np : Nat) where
  particles_ : DiffusionReactionParticles R np
  contact_particles_ : Nat → Nat → Nat → R

/-- Member function `DiffusionRelaxationDirichlet::getDiffusionChangeRateDirichletContact`; the
pointer vector `gradient_species_k` is given by the contact body `k` it
belongs to. -/
def DiffusionRelaxationDirichlet.getDiffusionChangeRateDirichletContact
    (c : DiffusionRelaxationDirichlet R np d) (particle_i : Fin np) (particle_j : Nat)
    (e_ij : Vecd R d) (surface_area_ij : R) (k : Nat)
    (s : ContactData R np) : ContactData R np :=
  forLoop c.all_diffusions_size
    (fun m s =>
      let diff_coff_ij := c.getInterParticleDiffusionCoff m particle_i particle_j e_ij
      let phi_ij := s.particles_.all_species_ (c.diffusion_species_indexes m) particle_i
        - s.contact_particles_ k (c.contact_gradient_species_ k m) particle_j
      let rate := s.particles_.diffusion_dt_ m particle_i + diff_coff_ij * phi_ij * surface_area_ij
      let particles := { s.particles_ with
        diffusion_dt_ := writeAt s.particles_.diffusion_dt_ m particle_i rate }
      { s with particles_ := particles }) s

/-- Member function `DiffusionRelaxationDirichlet::interaction` -/
def DiffusionRelaxationDirichlet.interaction
    (c : DiffusionRelaxationDirichlet R np d) (index_i : Fin np) (_dt : R)
    (s : ContactData R np) : ContactData R np :=
  forLoop c.contact_configuration_size
    (fun k s =>
      let contact_neighborhood := c.contact_configuration_ k index_i
      forLoop contact_neighborhood.current_size_
        (fun n s =>
          let index_j := contact_neighborhood.j_ n
          let r_ij_ := contact_neighborhood.r_ij_ n
          let dW_ijV_j_ := contact_neighborhood.dW_ijV_j_ n
          let e_ij := contact_neighborhood.e_ij_ n
          let grad_ijV_j := c.getKernelGradient index_i index_j dW_ijV_j_ e_ij
          let area_ij := 2 * Vecd.dot grad_ijV_j e_ij / r_ij_
          c.getDiffusionChangeRateDirichletContact index_i index_j e_ij area_ij k s) s) s

/-- The flux term the `n`-th record of the neighbours of `i` in contact body
`k` adds to the change rate of diffusion `m`, as
`getDiffusionChangeRateDirichletContact` computes it. -/
def DiffusionRelaxationDirichlet.contactFlux (c : DiffusionRelaxationDirichlet R np d)
    (species : Nat → Fin np → R) (contact_species : Nat → Nat → Nat → R)
    (m : Nat) (i : Fin np) (k n : Nat) : R :=
  let nb := c.contact_configuration_ k i
  c.getInterParticleDiffusionCoff m i (nb.j_ n) (nb.e_ij_ n)
    * (species (c.diffusion_species_indexes m) i
        - contact_species k (c.contact_gradient_species_ k m) (nb.j_ n))
    * (2 * Vecd.dot (c.getKernelGradient i (nb.j_ n) (nb.dW_ijV_j_ n) (nb.e_ij_ n)) (nb.e_ij_ n)
        / nb.r_ij_ n)

/-- The contact flux term in the words of the specification (sections 4.1 to
4.3): the difference is taken of the gradient-source field of `m`, between the
owning particle `i` and the contact neighbour,
`D_m(i, j, e_ij) * (g_m[i] - c_{k,m}[j]) * area_ij`. -/
def DiffusionRelaxationDirichlet.gradientSourceContactFlux
    (c : DiffusionRelaxationDirichlet R np d)
    (species : Nat → Fin np → R) (contact_species : Nat → Nat → Nat → R)
    (m : Nat) (i : Fin np) (k n : Nat) : R :=
  let nb := c.contact_configuration_ k i
  c.getInterParticleDiffusionCoff m i (nb.j_ n) (nb.e_ij_ n)
    * (species (c.gradient_species_indexes m) i
        - contact_species k (c.contact_gradient_species_ k m) (nb.j_ n))
    * (2 * Vecd.dot (c.getKernelGradient i (nb.j_ n) (nb.dW_ijV_j_ n) (nb.e_ij_ n)) (nb.e_ij_ n)
        / nb.r_ij_ n)

/-- Sum of the contact flux terms of particle `i` over the first `nk` contact
bodies and their neighbour records in use. -/
def DiffusionRelaxationDirichlet.contactRate (c : DiffusionRelaxationDirichlet R np d)
    (species : Nat → Fin np → R) (contact_species : Nat → Nat → Nat → R)
    (m : Nat) (i : Fin np) (nk : Nat) : R :=
  ∑ k in Finset.range nk, ∑ n in Finset.range (c.contact_configuration_ k i).current_size_,
    c.contactFlux species contact_species m i k n

end Contact

section Reaction

variable {R : Type} {np N : Nat}

/-! ## Reaction operator -/

/-- Type `LocalSpecies`, a `std::array<Real, NumReactiveSpecies>`. -/
abbrev LocalSpecies (R : Type) (N : Nat) := Fin N → R

/-- Read-only members of `BaseReactionRelaxation` for `N = NumReactiveSpecies`
reactive species: the production and loss rate functions of the reaction model
and the single-species step `updateAReactionSpecies(input, production_rate,
loss_rate, dt)`, which is declared outside this file and is a parameter here. -/
structure BaseReactionRelaxation (R : Type) (N : Nat) where
  get_production_rates_ : Fin N → LocalSpecies R N → R
  get_loss_rates_ : Fin N → LocalSpecies R N → R
  updateAReactionSpecies : R → R → R → R → R

/-- The arrays `reactive_species_[k]`, one per reactive species. -/
abbrev ReactiveSpecies (R : Type) (N np : Nat) := Fin N → Fin np → R

/-- Member function `BaseReactionRelaxation::loadLocalSpecies` -/
def BaseReactionRelaxation.loadLocalSpecies (reactive_species_ : ReactiveSpecies R N np)
    (local_species : LocalSpecies R N) (index_i : Fin np) : LocalSpecies R N :=
  forLoop N
    (fun k local_species =>
      if h : k < N then Function.update local_species ⟨k, h⟩ (reactive_species_ ⟨k, h⟩ index_i)
      else local_species) local_species

/-- Member function `BaseReactionRelaxation::applyGlobalSpecies` -/
def BaseReactionRelaxation.applyGlobalSpecies (reactive_species_ : ReactiveSpecies R N np)
    (local_species : LocalSpecies R N) (index_i : Fin np) : ReactiveSpecies R N np :=
  forLoop N
    (fun k reactive_species_ =>
      if h : k < N then
        Function.update reactive_species_ ⟨k, h⟩
          (Function.update (reactive_species_ ⟨k, h⟩) index_i (local_species ⟨k, h⟩))
      else reactive_species_) reactive_species_

/-- Body of the species loop of both sweeps, for the species index `k`. -/
def BaseReactionRelaxation.advanceSpecies (c : BaseReactionRelaxation R N) (dt : R) (k : Nat)
    (local_species : LocalSpecies R N) : LocalSpecies R N :=
  if h : k < N then
    let production_rate := c.get_production_rates_ ⟨k, h⟩ local_species
    let loss_rate := c.get_loss_rates_ ⟨k, h⟩ local_species
    Function.update local_species ⟨k, h⟩
      (c.updateAReactionSpecies (local_species ⟨k, h⟩) production_rate loss_rate dt)
  else local_species

/-- Member function `BaseReactionRelaxation::advanceForwardStep`; `uninitialized` is the
indeterminate content of the local array before it is loaded. -/
def BaseReactionRelaxation.advanceForwardStep (c : BaseReactionRelaxation R N)
    (uninitialized : LocalSpecies R N) (index_i : Fin np) (dt : R)
    (reactive_species_ : ReactiveSpecies R N np) : ReactiveSpecies R N np :=
  let local_species := loadLocalSpecies reactive_species_ uninitialized index_i
  let local_species := forLoop N (fun k local_species => c.advanceSpecies dt k local_species)
    local_species
  applyGlobalSpecies reactive_species_ local_species index_i

/-- Member function `BaseReactionRelaxation::advanceBackwardStep`; `uninitialized` is the
indeterminate content of the local array before it is loaded. -/
def BaseReactionRelaxation.advanceBackwardStep (c : BaseReactionRelaxation R N)
    (uninitialized : LocalSpecies R N) (index_i : Fin np) (dt : R)
    (reactive_species_ : ReactiveSpecies R N np) : ReactiveSpecies R N np :=
  let local_species := loadLocalSpecies reactive_species_ uninitialized index_i
  let local_species := forLoopDown N (fun m local_species => c.advanceSpecies dt m local_species)
    local_species
  applyGlobalSpecies reactive_species_ local_species index_i

/-- The index-reversed reaction system, in the words of C17: species `k` of the
reversed system is species `N - 1 - k` of the given one, and its production and
loss functions are those of that species composed with the reversal of the
local species vector; the single-species step is the same. -/
def BaseReactionRelaxation.reversed (c : BaseReactionRelaxation R N) :
    BaseReactionRelaxation R N where
  get_production_rates_ := fun k v => c.get_production_rates_ (Fin.rev k) (fun j => v (Fin.rev j))
  get_loss_rates_ := fun k v => c.get_loss_rates_ (Fin.rev k) (fun j => v (Fin.rev j))
  updateAReactionSpecies := c.updateAReactionSpecies

end Reaction

/-! ## A concrete configuration

Two particles on a line at distance one, each the only neighbour of the other,
one diffusion with coefficient one whose gradient source is its own field, and
the kernel gradient `dW_ijV_j * e_ij` of the base particles. -/

/-- Neighbour record array with the single record `(j, r = 1, e, dW V = -1/2)`. -/
def sampleNeighborhood (j : Fin 2) (e : ℚ) : Neighborhood ℚ (Fin 2) 1 where
  current_size_ := 1
  j_ := fun _ => j
  dW_ijV_j_ := fun _ => -1 / 2
  r_ij_ := fun _ => 1
  e_ij_ := fun _ _ => e

/-- Two mutually neighbouring particles. -/
def sampleInner : DiffusionRelaxationInner ℚ 2 1 where
  all_diffusions_size := 1
  diffusion_species_indexes := fun m => m
  gradient_species_indexes := fun m => m
  getInterParticleDiffusionCoff := fun _ _ _ _ => 1
  getKernelGradient := fun _ _ dW e k => dW * e k
  diffusion_species_distinct := fun _ _ hm hm' _ =>
    (Nat.lt_one_iff.mp hm).trans (Nat.lt_one_iff.mp hm').symm
  inner_configuration_ := fun i =>
    if i = 0 then sampleNeighborhood 1 (-1) else sampleNeighborhood 0 1

/-- Species value `5` at both particles, stale change rates `7`. -/
def sampleUniformData : DiffusionReactionParticles ℚ 2 where
  all_species_ := fun _ _ => 5
  diffusion_dt_ := fun _ _ => 7
  diffusion_species_s_ := fun _ _ => 0

/-- Species values `1` and `3` at the two particles, stale change rates `7`. -/
def sampleData : DiffusionReactionParticles ℚ 2 where
  all_species_ := fun _ i => if i = 0 then 1 else 3
  diffusion_dt_ := fun _ _ => 7
  diffusion_species_s_ := fun _ _ => 0

/-- Contact neighbour records of the sample contact configurations: every
particle has the single contact neighbour `0` at distance one in direction `1`. -/
def sampleContactNeighborhood : Neighborhood ℚ Nat 1 where
  current_size_ := 1
  j_ := fun _ => 0
  dW_ijV_j_ := fun _ => -1 / 2
  r_ij_ := fun _ => 1
  e_ij_ := fun _ _ => 1

/-- The two particles of `sampleInner` in contact with one boundary body. -/
def sampleDirichlet : DiffusionRelaxationDirichlet ℚ 2 1 where
  toBaseDiffusionRelaxation := sampleInner.toBaseDiffusionRelaxation
  contact_configuration_size := 1
  contact_configuration_ := fun _ _ => sampleContactNeighborhood
  contact_gradient_species_ := fun _ m => m

/-- The data of `sampleData` next to a boundary body whose fields hold `4`. -/
def sampleContactData : ContactData ℚ 2 where
  particles_ := sampleData
  contact_particles_ := fun _ _ _ => 4

/-- A contact configuration whose single diffusion feeds field `0` and takes
field `1` as its gradient source; the boundary body stores the field of that
name at its index `1`. -/
def sampleSplitDirichlet : DiffusionRelaxationDirichlet ℚ 2 1 where
  all_diffusions_size := 1
  diffusion_species_indexes := fun _ => 0
  gradient_species_indexes := fun _ => 1
  getInterParticleDiffusionCoff := fun _ _ _ _ => 1
  getKernelGradient := fun _ _ dW e k => dW * e k
  diffusion_species_distinct := fun _ _ hm hm' _ =>
    (Nat.lt_one_iff.mp hm).trans (Nat.lt_one_iff.mp hm').symm
  contact_configuration_size := 1
  contact_configuration_ := fun _ _ => sampleContactNeighborhood
  contact_gradient_species_ := fun _ _ => 1

/-- Diffusive field `0` holds `1`, gradient-source field `1` holds `4` at both
particles, the change rates are `0`; the boundary body holds `4` in every
field, so the gradient source is level across the contact. -/
def sampleSplitData : ContactData ℚ 2 where
  particles_ :=
    { all_species_ := fun l _ => if l = 0 then 1 else 4
      diffusion_dt_ := fun _ _ => 0
      diffusion_species_s_ := fun _ _ => 0 }
  contact_particles_ := fun _ _ _ => 4

/-- A two-species reaction system: each species is produced at the rate of the
other one's value and lost at rate one; the single-species step is the
implicit-in-loss step `(c + dt * p) / (1 + dt * l)`. -/
def sampleReaction : BaseReactionRelaxation ℚ 2 where
  get_production_rates_ := fun k v => if k = 0 then v 1 else v 0
  get_loss_rates_ := fun _ _ => 1
  updateAReactionSpecies := fun c p l dt => (c + dt * p) / (1 + dt * l)

/-- Reactive values `1` and `2` at particle `0`, and `other` at particle `1`. -/
def sampleReactive (other : ℚ) : ReactiveSpecies ℚ 2 2 :=
  fun k i => if i = 0 then (if k = 0 then 1 else 2) else other

/-- A contact setup with two diffusions, whose gradient sources are named `Phi`
and `Psi`, and two contact bodies that both register the two names. -/
def sampleSetup : ContactSetup where
  all_species_names := fun l => if l = 0 then "Phi" else "Psi"
  all_diffusions_size := 2
  gradient_species_index_ := fun m => m
  contact_particles_size := 2
  AllSpeciesIndexMap := fun _ name =>
    if name = "Phi" then some 0 else if name = "Psi" then some 1 else none

/-! # Theorems -/

theorem writeAt_apply {R : Type} {np : Nat} (a : Nat → Fin np → R) (m : Nat) (i : Fin np) (v : R)
    (m' : Nat) (i' : Fin np) :
    writeAt a m i v m' i' = if m' = m ∧ i' = i then v else a m' i' := by
  unfold writeAt
  by_cases hm : m' = m
  · subst hm
    by_cases hi : i' = i
    · subst hi; simp
    · simp [Function.update_noteq hi, hi]
  · simp [Function.update_noteq hm, hm]

/-- A loop over the diffusions that rewrites the change rate of the running
diffusion at one particle from the species store and its own old value. -/
theorem forLoop_rate {R : Type} {np : Nat} (i : Fin np) (g : Nat → (Nat → Fin np → R) → R → R) (n : Nat)
    (s : DiffusionReactionParticles R np) :
    (forLoop n (rateBody i g) s).all_species_ = s.all_species_ ∧
    (forLoop n (rateBody i g) s).diffusion_species_s_ = s.diffusion_species_s_ ∧
    ∀ m' i', (forLoop n (rateBody i g) s).diffusion_dt_ m' i'
      = if m' < n ∧ i' = i then g m' s.all_species_ (s.diffusion_dt_ m' i)
        else s.diffusion_dt_ m' i' := by
  induction n with
  | zero => simp [forLoop]
  | succ n ih =>
    obtain ⟨h1, h2, h3⟩ := ih
    refine ⟨?_, ?_, ?_⟩
    · simpa [forLoop, rateBody] using h1
    · simpa [forLoop, rateBody] using h2
    · intro m' i'
      simp only [forLoop, rateBody, writeAt_apply, h1, h3]
      by_cases hm : m' = n
      · subst hm
        by_cases hi : i' = i
        · subst hi; simp
        · simp [hi]
      · by_cases hlt : m' < n
        · have : m' < n + 1 := by omega
          simp [hm, hlt, this]
        · have : ¬ m' < n + 1 := by omega
          simp [hm, hlt, this]

section InnerLemmas

variable {R : Type} [Field R] {np d : Nat}

theorem initializeDiffusionChangeRate_spec (c : DiffusionRelaxationInner R np d) (i : Fin np)
    (s : DiffusionReactionParticles R np) :
    (c.initializeDiffusionChangeRate i s).all_species_ = s.all_species_ ∧
    (c.initializeDiffusionChangeRate i s).diffusion_species_s_ = s.diffusion_species_s_ ∧
    ∀ m' i', (c.initializeDiffusionChangeRate i s).diffusion_dt_ m' i'
      = if m' < c.all_diffusions_size ∧ i' = i then 0 else s.diffusion_dt_ m' i' :=
  forLoop_rate i (fun _ _ _ => 0) c.all_diffusions_size s

theorem getDiffusionChangeRate_spec (c : DiffusionRelaxationInner R np d) (i j : Fin np)
    (e : Vecd R d) (area : R) (s : DiffusionReactionParticles R np) :
    (c.getDiffusionChangeRate i j e area s).all_species_ = s.all_species_ ∧
    (c.getDiffusionChangeRate i j e area s).diffusion_species_s_ = s.diffusion_species_s_ ∧
    ∀ m' i', (c.getDiffusionChangeRate i j e area s).diffusion_dt_ m' i'
      = if m' < c.all_diffusions_size ∧ i' = i then
          s.diffusion_dt_ m' i + c.getInterParticleDiffusionCoff m' i j e
            * (s.all_species_ (c.gradient_species_indexes m') i
                - s.all_species_ (c.gradient_species_indexes m') j) * area
        else s.diffusion_dt_ m' i' :=
  forLoop_rate i (fun m sp old => old + c.getInterParticleDiffusionCoff m i j e
    * (sp (c.gradient_species_indexes m) i - sp (c.gradient_species_indexes m) j) * area)
    c.all_diffusions_size s

/-- State after the first `k` iterations of the neighbour loop of `interaction`. -/
theorem interaction_loop_spec (c : DiffusionRelaxationInner R np d) (i : Fin np)
    (s : DiffusionReactionParticles R np) (k : Nat) :
    (forLoop k (fun n s => c.getDiffusionChangeRate i ((c.inner_configuration_ i).j_ n)
        ((c.inner_configuration_ i).e_ij_ n)
        (2 * Vecd.dot (c.getKernelGradient i ((c.inner_configuration_ i).j_ n)
          ((c.inner_configuration_ i).dW_ijV_j_ n) ((c.inner_configuration_ i).e_ij_ n))
          ((c.inner_configuration_ i).e_ij_ n) / (c.inner_configuration_ i).r_ij_ n) s)
      (c.initializeDiffusionChangeRate i s)).all_species_ = s.all_species_ ∧
    (forLoop k (fun n s => c.getDiffusionChangeRate i ((c.inner_configuration_ i).j_ n)
        ((c.inner_configuration_ i).e_ij_ n)
        (2 * Vecd.dot (c.getKernelGradient i ((c.inner_configuration_ i).j_ n)
          ((c.inner_configuration_ i).dW_ijV_j_ n) ((c.inner_configuration_ i).e_ij_ n))
          ((c.inner_configuration_ i).e_ij_ n) / (c.inner_configuration_ i).r_ij_ n) s)
      (c.initializeDiffusionChangeRate i s)).diffusion_species_s_ = s.diffusion_species_s_ ∧
    ∀ m' i', (forLoop k (fun n s => c.getDiffusionChangeRate i ((c.inner_configuration_ i).j_ n)
        ((c.inner_configuration_ i).e_ij_ n)
        (2 * Vecd.dot (c.getKernelGradient i ((c.inner_configuration_ i).j_ n)
          ((c.inner_configuration_ i).dW_ijV_j_ n) ((c.inner_configuration_ i).e_ij_ n))
          ((c.inner_configuration_ i).e_ij_ n) / (c.inner_configuration_ i).r_ij_ n) s)
      (c.initializeDiffusionChangeRate i s)).diffusion_dt_ m' i'
      = if m' < c.all_diffusions_size ∧ i' = i then
          ∑ n in Finset.range k, c.pairFlux s.all_species_ m' i n
        else s.diffusion_dt_ m' i' := by
  induction k with
  | zero =>
    obtain ⟨h1, h2, h3⟩ := initializeDiffusionChangeRate_spec c i s
    exact ⟨h1, h2, by simpa [forLoop] using h3⟩
  | succ k ih =>
    obtain ⟨h1, h2, h3⟩ := ih
    simp only [forLoop]
    obtain ⟨g1, g2, g3⟩ := getDiffusionChangeRate_spec c i ((c.inner_configuration_ i).j_ k)
        ((c.inner_configuration_ i).e_ij_ k)
        (2 * Vecd.dot (c.getKernelGradient i ((c.inner_configuration_ i).j_ k)
          ((c.inner_configuration_ i).dW_ijV_j_ k) ((c.inner_configuration_ i).e_ij_ k))
          ((c.inner_configuration_ i).e_ij_ k) / (c.inner_configuration_ i).r_ij_ k)
        (forLoop k (fun n s => c.getDiffusionChangeRate i ((c.inner_configuration_ i).j_ n)
          ((c.inner_configuration_ i).e_ij_ n)
          (2 * Vecd.dot (c.getKernelGradient i ((c.inner_configuration_ i).j_ n)
            ((c.inner_configuration_ i).dW_ijV_j_ n) ((c.inner_configuration_ i).e_ij_ n))
            ((c.inner_configuration_ i).e_ij_ n) / (c.inner_configuration_ i).r_ij_ n) s)
          (c.initializeDiffusionChangeRate i s))
    refine ⟨g1.trans h1, g2.trans h2, ?_⟩
    intro m' i'
    rw [g3, h1]
    by_cases hc : m' < c.all_diffusions_size ∧ i' = i
    · rw [if_pos hc, if_pos hc, h3, if_pos ⟨hc.1, rfl⟩, Finset.sum_range_succ]
      rfl
    · rw [if_neg hc, if_neg hc, h3, if_neg hc]

/-- Effect of `interaction` at one particle on the whole particle data. -/
theorem interaction_spec (c : DiffusionRelaxationInner R np d) (i : Fin np) (dt : R)
    (s : DiffusionReactionParticles R np) :
    (c.interaction i dt s).all_species_ = s.all_species_ ∧
    (c.interaction i dt s).diffusion_species_s_ = s.diffusion_species_s_ ∧
    ∀ m' i', (c.interaction i dt s).diffusion_dt_ m' i'
      = if m' < c.all_diffusions_size ∧ i' = i then c.changeRate s.all_species_ m' i
        else s.diffusion_dt_ m' i' :=
  interaction_loop_spec c i s (c.inner_configuration_ i).current_size_

theorem setSpecies_all_species (s : DiffusionReactionParticles R np) (l : Nat) (i : Fin np)
    (v : R) : (setSpecies s l i v).all_species_ = writeAt s.all_species_ l i v := rfl

theorem setSpecies_diffusion_dt (s : DiffusionReactionParticles R np) (l : Nat) (i : Fin np)
    (v : R) : (setSpecies s l i v).diffusion_dt_ = s.diffusion_dt_ := rfl

theorem setSpecies_snapshot (s : DiffusionReactionParticles R np) (l : Nat) (i : Fin np)
    (v : R) : (setSpecies s l i v).diffusion_species_s_ = s.diffusion_species_s_ := rfl

/-- State after the first `n` iterations of the loop of `updateSpeciesDiffusion`. -/
theorem updateSpeciesDiffusion_loop_spec (c : DiffusionRelaxationInner R np d) (i : Fin np)
    (dt : R) (s : DiffusionReactionParticles R np) (n : Nat) :
    (forLoop n (fun m s => setSpecies s (c.diffusion_species_indexes m) i
        (s.all_species_ (c.diffusion_species_indexes m) i + dt * s.diffusion_dt_ m i)) s).diffusion_dt_ = s.diffusion_dt_ ∧
    (forLoop n (fun m s => setSpecies s (c.diffusion_species_indexes m) i
        (s.all_species_ (c.diffusion_species_indexes m) i + dt * s.diffusion_dt_ m i)) s).diffusion_species_s_ = s.diffusion_species_s_ ∧
    ∀ l i', (forLoop n (fun m s => setSpecies s (c.diffusion_species_indexes m) i
        (s.all_species_ (c.diffusion_species_indexes m) i + dt * s.diffusion_dt_ m i)) s).all_species_ l i'
      = s.all_species_ l i' + if i' = i then
          ∑ m in (Finset.range n).filter (fun m => c.diffusion_species_indexes m = l),
            dt * s.diffusion_dt_ m i
        else 0 := by
  induction n with
  | zero => simp [forLoop]
  | succ n ih =>
    obtain ⟨h1, h2, h3⟩ := ih
    refine ⟨?_, ?_, ?_⟩
    · simpa only [forLoop, setSpecies_diffusion_dt] using h1
    · simpa only [forLoop, setSpecies_snapshot] using h2
    · intro l i'
      simp only [forLoop, setSpecies_all_species, writeAt_apply, h1, h3, Finset.range_succ]
      by_cases hi : i' = i
      · subst hi
        by_cases hl : l = c.diffusion_species_indexes n
        · subst hl
          simp only [Finset.filter_insert, and_self, if_true]
          rw [Finset.sum_insert (by simp)]
          ring
        · have hl' : ¬ c.diffusion_species_indexes n = l := fun h => hl h.symm
          simp only [Finset.filter_insert, if_neg hl', hl, false_and, if_false, if_true]
      · simp only [hi, and_false, if_false]

theorem updateSpeciesDiffusion_spec (c : DiffusionRelaxationInner R np d) (i : Fin np)
    (dt : R) (s : DiffusionReactionParticles R np) :
    (c.update i dt s).diffusion_dt_ = s.diffusion_dt_ ∧
    (c.update i dt s).diffusion_species_s_ = s.diffusion_species_s_ ∧
    ∀ l i', (c.update i dt s).all_species_ l i'
      = s.all_species_ l i' + if i' = i then
          ∑ m in (Finset.range c.all_diffusions_size).filter
              (fun m => c.diffusion_species_indexes m = l), dt * s.diffusion_dt_ m i
        else 0 :=
  updateSpeciesDiffusion_loop_spec c i dt s c.all_diffusions_size

/-- Flux pass over a list of particles. -/
theorem foldl_interaction_spec (c : DiffusionRelaxationInner R np d) (dt : R)
    (l : List (Fin np)) (s : DiffusionReactionParticles R np) :
    (l.foldl (fun s i => c.interaction i dt s) s).all_species_ = s.all_species_ ∧
    (l.foldl (fun s i => c.interaction i dt s) s).diffusion_species_s_
      = s.diffusion_species_s_ ∧
    ∀ m i, (l.foldl (fun s i => c.interaction i dt s) s).diffusion_dt_ m i
      = if m < c.all_diffusions_size ∧ i ∈ l then c.changeRate s.all_species_ m i
        else s.diffusion_dt_ m i := by
  induction l generalizing s with
  | nil => simp
  | cons a l ih =>
    obtain ⟨h1, h2, h3⟩ := ih (c.interaction a dt s)
    obtain ⟨g1, g2, g3⟩ := interaction_spec c a dt s
    refine ⟨?_, ?_, ?_⟩
    · simpa [List.foldl] using h1.trans g1
    · simpa [List.foldl] using h2.trans g2
    · intro m i
      simp only [List.foldl, h3, g1, g3, List.mem_cons]
      by_cases hm : m < c.all_diffusions_size
      · by_cases hl : i ∈ l
        · simp [hm, hl]
        · by_cases ha : i = a
          · subst ha; simp [hm, hl]
          · simp [hm, hl, ha]
      · simp [hm]

/-- Commit pass over a list of pairwise distinct particles. -/
theorem foldl_update_spec (c : DiffusionRelaxationInner R np d) (dt : R)
    (l : List (Fin np)) (hl : l.Nodup) (s : DiffusionReactionParticles R np) :
    (l.foldl (fun s i => c.update i dt s) s).diffusion_dt_ = s.diffusion_dt_ ∧
    (l.foldl (fun s i => c.update i dt s) s).diffusion_species_s_ = s.diffusion_species_s_ ∧
    ∀ k i, (l.foldl (fun s i => c.update i dt s) s).all_species_ k i
      = s.all_species_ k i + if i ∈ l then
          ∑ m in (Finset.range c.all_diffusions_size).filter
              (fun m => c.diffusion_species_indexes m = k), dt * s.diffusion_dt_ m i
        else 0 := by
  induction l generalizing s with
  | nil => simp
  | cons a l ih =>
    obtain ⟨ha, hl'⟩ := List.nodup_cons.mp hl
    obtain ⟨h1, h2, h3⟩ := ih hl' (c.update a dt s)
    obtain ⟨g1, g2, g3⟩ := updateSpeciesDiffusion_spec c a dt s
    refine ⟨?_, ?_, ?_⟩
    · simpa [List.foldl] using h1.trans g1
    · simpa [List.foldl] using h2.trans g2
    · intro k i
      simp only [List.foldl, h3, g1, g3, List.mem_cons]
      by_cases hia : i = a
      · subst hia; simp [ha]
      · by_cases hil : i ∈ l
        · simp [hia, hil]
        · simp [hia, hil]

/-- One plain forward-Euler step: every change rate of a diffusion is the flux
sum at the state before the step, and every species value has moved by `dt`
times the change rates of the diffusions that feed its field. -/
theorem exec_spec (c : DiffusionRelaxationInner R np d) (dt : R)
    (s : DiffusionReactionParticles R np) :
    (c.exec dt s).diffusion_species_s_ = s.diffusion_species_s_ ∧
    (∀ m i, (c.exec dt s).diffusion_dt_ m i
      = if m < c.all_diffusions_size then c.changeRate s.all_species_ m i
        else s.diffusion_dt_ m i) ∧
    ∀ k i, (c.exec dt s).all_species_ k i
      = s.all_species_ k i +
          ∑ m in (Finset.range c.all_diffusions_size).filter
              (fun m => c.diffusion_species_indexes m = k),
            dt * c.changeRate s.all_species_ m i := by
  obtain ⟨h1, h2, h3⟩ := foldl_interaction_spec c dt (List.finRange np) s
  obtain ⟨g1, g2, g3⟩ := foldl_update_spec c dt (List.finRange np) (List.nodup_finRange np)
    ((List.finRange np).foldl (fun s i => c.interaction i dt s) s)
  refine ⟨?_, ?_, ?_⟩
  · exact g2.trans h2
  · intro m i
    show ((List.finRange np).foldl (fun s i => c.update i dt s)
      ((List.finRange np).foldl (fun s i => c.interaction i dt s) s)).diffusion_dt_ m i = _
    rw [g1, h3]
    simp [List.mem_finRange]
  · intro k i
    show ((List.finRange np).foldl (fun s i => c.update i dt s)
      ((List.finRange np).foldl (fun s i => c.interaction i dt s) s)).all_species_ k i = _
    rw [g3, h1, if_pos (List.mem_finRange i)]
    congr 1
    apply Finset.sum_congr rfl
    intro m hm
    rw [h3, if_pos ⟨Finset.mem_range.mp (Finset.mem_filter.mp hm).1, List.mem_finRange i⟩]

/-- With a uniform gradient source every flux sum vanishes. -/
theorem changeRate_eq_zero_of_uniform (c : DiffusionRelaxationInner R np d)
    (sp : Nat → Fin np → R) (m : Nat)
    (h : ∀ i j : Fin np, sp (c.gradient_species_indexes m) i = sp (c.gradient_species_indexes m) j)
    (i : Fin np) : c.changeRate sp m i = 0 := by
  unfold DiffusionRelaxationInner.changeRate
  apply Finset.sum_eq_zero
  intro n _
  unfold DiffusionRelaxationInner.pairFlux
  simp only
  rw [h i ((c.inner_configuration_ i).j_ n), sub_self, mul_zero, zero_mul]

/-- Volume-weighted flux sums cancel over a reciprocal neighbour relation. -/
theorem sum_volume_changeRate (c : DiffusionRelaxationInner R np d) (V : Fin np → R)
    (sp : Nat → Fin np → R) (m : Nat)
    (hdistinct : ∀ (i : Fin np) (n n' : Nat), n < (c.inner_configuration_ i).current_size_ →
      n' < (c.inner_configuration_ i).current_size_ →
      (c.inner_configuration_ i).j_ n = (c.inner_configuration_ i).j_ n' → n = n')
    (hrecip : ∀ (i : Fin np) (n : Nat), n < (c.inner_configuration_ i).current_size_ →
      ∃ n', n' < (c.inner_configuration_ ((c.inner_configuration_ i).j_ n)).current_size_ ∧
        (c.inner_configuration_ ((c.inner_configuration_ i).j_ n)).j_ n' = i ∧
        (c.inner_configuration_ ((c.inner_configuration_ i).j_ n)).e_ij_ n'
          = -(c.inner_configuration_ i).e_ij_ n)
    (hcoff : ∀ (m : Nat) (i j : Fin np) (e : Vecd R d),
      c.getInterParticleDiffusionCoff m i j e = c.getInterParticleDiffusionCoff m j i (-e))
    (harea : ∀ (i : Fin np) (n n' : Nat), n < (c.inner_configuration_ i).current_size_ →
      n' < (c.inner_configuration_ ((c.inner_configuration_ i).j_ n)).current_size_ →
      (c.inner_configuration_ ((c.inner_configuration_ i).j_ n)).j_ n' = i →
      V i * c.area i n
        = V ((c.inner_configuration_ i).j_ n) * c.area ((c.inner_configuration_ i).j_ n) n') :
    ∑ i, V i * c.changeRate sp m i = 0 := by
  classical
  choose! mate h1 h2 h3 using hrecip
  unfold DiffusionRelaxationInner.changeRate
  simp only [Finset.mul_sum]
  rw [Finset.sum_sigma' Finset.univ (fun i => Finset.range (c.inner_configuration_ i).current_size_)
    (fun i n => V i * c.pairFlux sp m i n)]
  have hmem : ∀ a : (_ : Fin np) × ℕ,
      a ∈ (Finset.univ : Finset (Fin np)).sigma
        (fun i => Finset.range (c.inner_configuration_ i).current_size_) ↔
      a.2 < (c.inner_configuration_ a.1).current_size_ := by
    intro a; simp
  refine Finset.sum_involution
    (fun a _ => ⟨(c.inner_configuration_ a.1).j_ a.2, mate a.1 a.2⟩) ?_ ?_ ?_ ?_
  · rintro ⟨i, n⟩ ha
    have hn := (hmem ⟨i, n⟩).1 ha
    have hA := harea i n _ hn (h1 i n hn) (h2 i n hn)
    simp only [DiffusionRelaxationInner.pairFlux, DiffusionRelaxationInner.area] at hA ⊢
    rw [h2 i n hn, h3 i n hn,
      ← hcoff m i ((c.inner_configuration_ i).j_ n) ((c.inner_configuration_ i).e_ij_ n)]
    rw [h2 i n hn, h3 i n hn] at hA
    linear_combination
      (c.getInterParticleDiffusionCoff m i ((c.inner_configuration_ i).j_ n)
        ((c.inner_configuration_ i).e_ij_ n)
        * (sp (c.gradient_species_indexes m) i
            - sp (c.gradient_species_indexes m) ((c.inner_configuration_ i).j_ n))) * hA
  · rintro ⟨i, n⟩ ha hne heq
    apply hne
    have hj : (c.inner_configuration_ i).j_ n = i := congrArg Sigma.fst heq
    simp only [DiffusionRelaxationInner.pairFlux, hj, sub_self, mul_zero, zero_mul]
  · rintro ⟨i, n⟩ ha
    have hn := (hmem ⟨i, n⟩).1 ha
    exact (hmem _).2 (h1 i n hn)
  · rintro ⟨i, n⟩ ha
    have hn := (hmem ⟨i, n⟩).1 ha
    have hback := h2 i n hn
    have g1 := h1 _ _ (h1 i n hn)
    have g2 := h2 _ _ (h1 i n hn)
    rw [hback] at g1 g2
    refine Sigma.ext hback ?_
    simp only [heq_eq_eq]
    exact hdistinct i _ n g1 hn g2

/-- State after the first `n` iterations of the loop of `InitializationRK::update`. -/
theorem initializationRK_loop_spec (c : DiffusionRelaxationInner R np d) (i : Fin np)
    (s : DiffusionReactionParticles R np) (n : Nat) :
    (forLoop n (fun m s => setSnapshot s m i (s.all_species_ (c.diffusion_species_indexes m) i))
      s).all_species_ = s.all_species_ ∧
    (forLoop n (fun m s => setSnapshot s m i (s.all_species_ (c.diffusion_species_indexes m) i))
      s).diffusion_dt_ = s.diffusion_dt_ ∧
    ∀ m' i', (forLoop n (fun m s =>
        setSnapshot s m i (s.all_species_ (c.diffusion_species_indexes m) i))
      s).diffusion_species_s_ m' i'
      = if m' < n ∧ i' = i then s.all_species_ (c.diffusion_species_indexes m') i
        else s.diffusion_species_s_ m' i' := by
  induction n with
  | zero => simp [forLoop]
  | succ n ih =>
    obtain ⟨h1, h2, h3⟩ := ih
    refine ⟨h1, h2, ?_⟩
    intro m' i'
    show writeAt _ n i _ m' i' = _
    rw [writeAt_apply, h1, h3]
    by_cases hm : m' = n
    · subst hm
      by_cases hi : i' = i
      · subst hi; simp
      · simp [hi]
    · by_cases hlt : m' < n
      · have : m' < n + 1 := by omega
        simp [hm, hlt, this]
      · have : ¬ m' < n + 1 := by omega
        simp [hm, hlt, this]

/-- Snapshot pass over a list of particles. -/
theorem foldl_initializationRK_spec (c : DiffusionRelaxationInner R np d) (dt : R)
    (l : List (Fin np)) (s : DiffusionReactionParticles R np) :
    (l.foldl (fun s i => InitializationRK.update c i dt s) s).all_species_ = s.all_species_ ∧
    (l.foldl (fun s i => InitializationRK.update c i dt s) s).diffusion_dt_ = s.diffusion_dt_ ∧
    ∀ m i, (l.foldl (fun s i => InitializationRK.update c i dt s) s).diffusion_species_s_ m i
      = if m < c.all_diffusions_size ∧ i ∈ l then s.all_species_ (c.diffusion_species_indexes m) i
        else s.diffusion_species_s_ m i := by
  induction l generalizing s with
  | nil => simp
  | cons a l ih =>
    obtain ⟨h1, h2, h3⟩ := ih (InitializationRK.update c a dt s)
    obtain ⟨g1, g2, g3⟩ := initializationRK_loop_spec c a s c.all_diffusions_size
    refine ⟨h1.trans g1, h2.trans g2, ?_⟩
    intro m i
    simp only [List.foldl, List.mem_cons]
    rw [h3]
    have e1 : (InitializationRK.update c a dt s).all_species_ = s.all_species_ := g1
    have e3 : ∀ m' i', (InitializationRK.update c a dt s).diffusion_species_s_ m' i'
        = if m' < c.all_diffusions_size ∧ i' = a then
            s.all_species_ (c.diffusion_species_indexes m') a
          else s.diffusion_species_s_ m' i' := g3
    rw [e1, e3]
    by_cases hm : m < c.all_diffusions_size
    · by_cases hl : i ∈ l
      · simp [hm, hl]
      · by_cases ha : i = a
        · subst ha; simp [hm, hl]
        · simp [hm, hl, ha]
    · simp [hm]

/-- State after the first `n` iterations of the loop of
`SecondStageRK2::updateSpeciesDiffusion`. -/
theorem secondStage_loop_spec (c : DiffusionRelaxationInner R np d) (i : Fin np) (dt : R)
    (s : DiffusionReactionParticles R np) (n : Nat) :
    (forLoop n (fun m s => setSpecies s (c.diffusion_species_indexes m) i
        (1 / 2 * s.diffusion_species_s_ m i
          + 1 / 2 * (s.all_species_ (c.diffusion_species_indexes m) i + dt * s.diffusion_dt_ m i)))
      s).diffusion_dt_ = s.diffusion_dt_ ∧
    (forLoop n (fun m s => setSpecies s (c.diffusion_species_indexes m) i
        (1 / 2 * s.diffusion_species_s_ m i
          + 1 / 2 * (s.all_species_ (c.diffusion_species_indexes m) i + dt * s.diffusion_dt_ m i)))
      s).diffusion_species_s_ = s.diffusion_species_s_ ∧
    (∀ l i', i' ≠ i → (forLoop n (fun m s => setSpecies s (c.diffusion_species_indexes m) i
        (1 / 2 * s.diffusion_species_s_ m i
          + 1 / 2 * (s.all_species_ (c.diffusion_species_indexes m) i + dt * s.diffusion_dt_ m i)))
      s).all_species_ l i' = s.all_species_ l i') ∧
    (∀ l, (∀ m', m' < n → c.diffusion_species_indexes m' ≠ l) →
      (forLoop n (fun m s => setSpecies s (c.diffusion_species_indexes m) i
        (1 / 2 * s.diffusion_species_s_ m i
          + 1 / 2 * (s.all_species_ (c.diffusion_species_indexes m) i + dt * s.diffusion_dt_ m i)))
      s).all_species_ l i = s.all_species_ l i) ∧
    (∀ m, m < n →
      (∀ m', m' < n → c.diffusion_species_indexes m' = c.diffusion_species_indexes m → m' = m) →
      (forLoop n (fun m s => setSpecies s (c.diffusion_species_indexes m) i
        (1 / 2 * s.diffusion_species_s_ m i
          + 1 / 2 * (s.all_species_ (c.diffusion_species_indexes m) i + dt * s.diffusion_dt_ m i)))
      s).all_species_ (c.diffusion_species_indexes m) i
        = 1 / 2 * s.diffusion_species_s_ m i
          + 1 / 2 * (s.all_species_ (c.diffusion_species_indexes m) i
              + dt * s.diffusion_dt_ m i)) := by
  induction n with
  | zero =>
    refine ⟨rfl, rfl, fun _ _ _ => rfl, fun _ _ => rfl, fun m hm => ?_⟩
    omega
  | succ n ih =>
    obtain ⟨h1, h2, h3, h4, h5⟩ := ih
    refine ⟨h1, h2, ?_, ?_, ?_⟩
    · intro l i' hi
      show writeAt _ _ i _ l i' = _
      rw [writeAt_apply, if_neg (fun h => hi h.2), h3 l i' hi]
    · intro l hl
      show writeAt _ _ i _ l i = _
      rw [writeAt_apply, if_neg (fun h => hl n (by omega) h.1.symm),
        h4 l (fun m' hm' => hl m' (by omega))]
    · intro m hm huniq
      show writeAt _ _ i _ (c.diffusion_species_indexes m) i = _
      rw [writeAt_apply]
      by_cases hmn : m = n
      · subst hmn
        rw [if_pos ⟨rfl, rfl⟩, h1, h2, h4 _ (fun m' hm' h => by
          have := huniq m' (by omega) h
          omega)]
      · have hne : ¬ (c.diffusion_species_indexes m = c.diffusion_species_indexes n ∧ i = i) := by
          intro h
          have := huniq n (by omega) h.1.symm
          omega
        rw [if_neg hne, h5 m (by omega) (fun m' hm' h => huniq m' (by omega) h)]

/-- Second-stage commit pass over a list of pairwise distinct particles. -/
theorem foldl_secondStage_spec (c : DiffusionRelaxationInner R np d) (dt : R)
    (l : List (Fin np)) (hl : l.Nodup) (s : DiffusionReactionParticles R np) :
    (l.foldl (fun s i => SecondStageRK2.updateSpeciesDiffusion c i dt s) s).diffusion_dt_
      = s.diffusion_dt_ ∧
    (l.foldl (fun s i => SecondStageRK2.updateSpeciesDiffusion c i dt s) s).diffusion_species_s_
      = s.diffusion_species_s_ ∧
    ∀ m, m < c.all_diffusions_size →
      (∀ m', m' < c.all_diffusions_size →
        c.diffusion_species_indexes m' = c.diffusion_species_indexes m → m' = m) →
      ∀ i, (l.foldl (fun s i => SecondStageRK2.updateSpeciesDiffusion c i dt s) s).all_species_
          (c.diffusion_species_indexes m) i
        = if i ∈ l then
            1 / 2 * s.diffusion_species_s_ m i
              + 1 / 2 * (s.all_species_ (c.diffusion_species_indexes m) i
                  + dt * s.diffusion_dt_ m i)
          else s.all_species_ (c.diffusion_species_indexes m) i := by
  induction l generalizing s with
  | nil => simp
  | cons a l ih =>
    obtain ⟨ha, hl'⟩ := List.nodup_cons.mp hl
    obtain ⟨h1, h2, h3⟩ := ih hl' (SecondStageRK2.updateSpeciesDiffusion c a dt s)
    obtain ⟨g1, g2, g3, _, g5⟩ := secondStage_loop_spec c a dt s c.all_diffusions_size
    have e1 : (SecondStageRK2.updateSpeciesDiffusion c a dt s).diffusion_dt_
        = s.diffusion_dt_ := g1
    have e2 : (SecondStageRK2.updateSpeciesDiffusion c a dt s).diffusion_species_s_
        = s.diffusion_species_s_ := g2
    refine ⟨h1.trans e1, h2.trans e2, ?_⟩
    intro m hm huniq i
    simp only [List.foldl, List.mem_cons]
    rw [h3 m hm huniq i, e1, e2]
    by_cases hia : i = a
    · subst hia
      rw [if_neg ha, if_pos (Or.inl rfl)]
      exact g5 m hm huniq
    · have e3 : (SecondStageRK2.updateSpeciesDiffusion c a dt s).all_species_
          (c.diffusion_species_indexes m) i = s.all_species_ (c.diffusion_species_indexes m) i :=
        g3 _ i hia
      rw [e3]
      by_cases hil : i ∈ l
      · rw [if_pos hil, if_pos (Or.inr hil)]
      · rw [if_neg hil, if_neg (fun h => h.elim hia hil)]

/-- The species store after a plain inner step is a function of the species
store before it. -/
theorem exec_all_species_congr (c : DiffusionRelaxationInner R np d) (dt : R)
    (s s' : DiffusionReactionParticles R np) (h : s'.all_species_ = s.all_species_) :
    (c.exec dt s').all_species_ = (c.exec dt s).all_species_ := by
  funext k i
  rw [(exec_spec c dt s').2.2 k i, (exec_spec c dt s).2.2 k i, h]

/-- A field that is fed by the single diffusion `m` moves by `dt` times the flux
sum of `m` in a plain inner step. -/
theorem exec_single_feed (c : DiffusionRelaxationInner R np d) (dt : R)
    (s : DiffusionReactionParticles R np) (m : Nat) (hm : m < c.all_diffusions_size)
    (huniq : ∀ m', m' < c.all_diffusions_size →
      c.diffusion_species_indexes m' = c.diffusion_species_indexes m → m' = m) (i : Fin np) :
    (c.exec dt s).all_species_ (c.diffusion_species_indexes m) i
      = s.all_species_ (c.diffusion_species_indexes m) i + dt * c.changeRate s.all_species_ m i := by
  rw [(exec_spec c dt s).2.2]
  have hfilter : (Finset.range c.all_diffusions_size).filter
      (fun m' => c.diffusion_species_indexes m' = c.diffusion_species_indexes m) = {m} := by
    ext m'
    simp only [Finset.mem_filter, Finset.mem_range, Finset.mem_singleton]
    constructor
    · rintro ⟨h1, h2⟩
      exact huniq m' h1 h2
    · rintro rfl
      exact ⟨hm, rfl⟩
  rw [hfilter, Finset.sum_singleton]

/-- The three stages of `DiffusionRelaxationRK2::exec` at a field fed by the
single diffusion `m`. -/
theorem rk2_exec_spec (c : DiffusionRelaxationInner R np d) (dt : R)
    (s : DiffusionReactionParticles R np) (m : Nat) (hm : m < c.all_diffusions_size)
    (huniq : ∀ m', m' < c.all_diffusions_size →
      c.diffusion_species_indexes m' = c.diffusion_species_indexes m → m' = m) (i : Fin np) :
    (DiffusionRelaxationRK2.exec c dt s).diffusion_species_s_ m i
      = s.all_species_ (c.diffusion_species_indexes m) i ∧
    (DiffusionRelaxationRK2.exec c dt s).all_species_ (c.diffusion_species_indexes m) i
      = 1 / 2 * s.all_species_ (c.diffusion_species_indexes m) i
        + 1 / 2 * ((c.exec dt s).all_species_ (c.diffusion_species_indexes m) i
            + dt * c.changeRate (c.exec dt s).all_species_ m i) := by
  obtain ⟨a1, a2, a3⟩ := foldl_initializationRK_spec c 0 (List.finRange np) s
  have b := exec_spec c dt ((List.finRange np).foldl (fun s i => InitializationRK.update c i 0 s) s)
  have bsp := exec_all_species_congr c dt s
    ((List.finRange np).foldl (fun s i => InitializationRK.update c i 0 s) s) a1
  obtain ⟨c1, c2, c3⟩ := foldl_interaction_spec c dt (List.finRange np)
    (c.exec dt ((List.finRange np).foldl (fun s i => InitializationRK.update c i 0 s) s))
  obtain ⟨d1, d2, d3⟩ := foldl_secondStage_spec c dt (List.finRange np) (List.nodup_finRange np)
    ((List.finRange np).foldl (fun s i => c.interaction i dt s)
      (c.exec dt ((List.finRange np).foldl (fun s i => InitializationRK.update c i 0 s) s)))
  have hsnap : (DiffusionRelaxationRK2.exec c dt s).diffusion_species_s_ m i
      = s.all_species_ (c.diffusion_species_indexes m) i := by
    show ((List.finRange np).foldl (fun s i => SecondStageRK2.updateSpeciesDiffusion c i dt s)
      ((List.finRange np).foldl (fun s i => c.interaction i dt s)
        (c.exec dt ((List.finRange np).foldl
          (fun s i => InitializationRK.update c i 0 s) s)))).diffusion_species_s_ m i = _
    rw [d2, c2, b.1, a3, if_pos ⟨hm, List.mem_finRange i⟩]
  refine ⟨hsnap, ?_⟩
  show ((List.finRange np).foldl (fun s i => SecondStageRK2.updateSpeciesDiffusion c i dt s)
    ((List.finRange np).foldl (fun s i => c.interaction i dt s)
      (c.exec dt ((List.finRange np).foldl
        (fun s i => InitializationRK.update c i 0 s) s)))).all_species_
          (c.diffusion_species_indexes m) i = _
  rw [d3 m hm huniq i, if_pos (List.mem_finRange i), c2, b.1, a3,
    if_pos ⟨hm, List.mem_finRange i⟩, c3, if_pos ⟨hm, List.mem_finRange i⟩, c1, bsp]

/-- The flux sum of `m` is the flux operator of `m` at its gradient-source field. -/
theorem changeRate_eq_fluxOperator (c : DiffusionRelaxationInner R np d)
    (sp : Nat → Fin np → R) (m : Nat) (i : Fin np) :
    c.changeRate sp m i = c.fluxOperator m (sp (c.gradient_species_indexes m)) i := rfl

/-- The flux operator is linear in the field. -/
theorem fluxOperator_linear (c : DiffusionRelaxationInner R np d) (m : Nat)
    (u v : Fin np → R) (a b : R) (i : Fin np) :
    c.fluxOperator m (fun i => a * u i + b * v i) i
      = a * c.fluxOperator m u i + b * c.fluxOperator m v i := by
  unfold DiffusionRelaxationInner.fluxOperator
  rw [Finset.mul_sum, Finset.mul_sum, ← Finset.sum_add_distrib]
  apply Finset.sum_congr rfl
  intro n _
  ring

end InnerLemmas

section ContactLemmas

variable {R : Type} [Field R] {np d : Nat}

/-- The Dirichlet flux loop over the diffusions touches the particle data of
the owning body only, where it is a change-rate loop. -/
theorem getDiffusionChangeRateDirichletContact_eq (c : DiffusionRelaxationDirichlet R np d)
    (i : Fin np) (j : Nat) (e : Vecd R d) (area : R) (k : Nat) (s : ContactData R np) :
    c.getDiffusionChangeRateDirichletContact i j e area k s
      = ContactData.mk
          (forLoop c.all_diffusions_size (rateBody i (fun m sp old =>
            old + c.getInterParticleDiffusionCoff m i j e
              * (sp (c.diffusion_species_indexes m) i
                  - s.contact_particles_ k (c.contact_gradient_species_ k m) j) * area))
            s.particles_)
          s.contact_particles_ := by
  unfold DiffusionRelaxationDirichlet.getDiffusionChangeRateDirichletContact
  generalize c.all_diffusions_size = n
  induction n with
  | zero => rfl
  | succ n ih =>
    simp only [forLoop]
    rw [ih]
    rfl

theorem getDiffusionChangeRateDirichletContact_spec (c : DiffusionRelaxationDirichlet R np d)
    (i : Fin np) (j : Nat) (e : Vecd R d) (area : R) (k : Nat) (s : ContactData R np) :
    (c.getDiffusionChangeRateDirichletContact i j e area k s).contact_particles_
      = s.contact_particles_ ∧
    (c.getDiffusionChangeRateDirichletContact i j e area k s).particles_.all_species_
      = s.particles_.all_species_ ∧
    (c.getDiffusionChangeRateDirichletContact i j e area k s).particles_.diffusion_species_s_
      = s.particles_.diffusion_species_s_ ∧
    ∀ m' i', (c.getDiffusionChangeRateDirichletContact i j e area k s).particles_.diffusion_dt_ m' i'
      = if m' < c.all_diffusions_size ∧ i' = i then
          s.particles_.diffusion_dt_ m' i + c.getInterParticleDiffusionCoff m' i j e
            * (s.particles_.all_species_ (c.diffusion_species_indexes m') i
                - s.contact_particles_ k (c.contact_gradient_species_ k m') j) * area
        else s.particles_.diffusion_dt_ m' i' := by
  rw [getDiffusionChangeRateDirichletContact_eq]
  obtain ⟨h1, h2, h3⟩ := forLoop_rate i (fun m sp old =>
    old + c.getInterParticleDiffusionCoff m i j e
      * (sp (c.diffusion_species_indexes m) i
          - s.contact_particles_ k (c.contact_gradient_species_ k m) j) * area)
    c.all_diffusions_size s.particles_
  exact ⟨rfl, h1, h2, h3⟩

/-- State after the first `q` iterations of the neighbour loop of contact body
`k` in the Dirichlet `interaction`. -/
theorem dirichlet_neighbour_loop_spec (c : DiffusionRelaxationDirichlet R np d)
    (i : Fin np) (k : Nat) (s : ContactData R np) (q : Nat) :
    (forLoop q (fun n s => c.getDiffusionChangeRateDirichletContact i
        ((c.contact_configuration_ k i).j_ n) ((c.contact_configuration_ k i).e_ij_ n)
        (2 * Vecd.dot (c.getKernelGradient i ((c.contact_configuration_ k i).j_ n)
          ((c.contact_configuration_ k i).dW_ijV_j_ n) ((c.contact_configuration_ k i).e_ij_ n))
          ((c.contact_configuration_ k i).e_ij_ n) / (c.contact_configuration_ k i).r_ij_ n) k s)
      s).contact_particles_ = s.contact_particles_ ∧
    (forLoop q (fun n s => c.getDiffusionChangeRateDirichletContact i
        ((c.contact_configuration_ k i).j_ n) ((c.contact_configuration_ k i).e_ij_ n)
        (2 * Vecd.dot (c.getKernelGradient i ((c.contact_configuration_ k i).j_ n)
          ((c.contact_configuration_ k i).dW_ijV_j_ n) ((c.contact_configuration_ k i).e_ij_ n))
          ((c.contact_configuration_ k i).e_ij_ n) / (c.contact_configuration_ k i).r_ij_ n) k s)
      s).particles_.all_species_ = s.particles_.all_species_ ∧
    (forLoop q (fun n s => c.getDiffusionChangeRateDirichletContact i
        ((c.contact_configuration_ k i).j_ n) ((c.contact_configuration_ k i).e_ij_ n)
        (2 * Vecd.dot (c.getKernelGradient i ((c.contact_configuration_ k i).j_ n)
          ((c.contact_configuration_ k i).dW_ijV_j_ n) ((c.contact_configuration_ k i).e_ij_ n))
          ((c.contact_configuration_ k i).e_ij_ n) / (c.contact_configuration_ k i).r_ij_ n) k s)
      s).particles_.diffusion_species_s_ = s.particles_.diffusion_species_s_ ∧
    ∀ m' i', (forLoop q (fun n s => c.getDiffusionChangeRateDirichletContact i
        ((c.contact_configuration_ k i).j_ n) ((c.contact_configuration_ k i).e_ij_ n)
        (2 * Vecd.dot (c.getKernelGradient i ((c.contact_configuration_ k i).j_ n)
          ((c.contact_configuration_ k i).dW_ijV_j_ n) ((c.contact_configuration_ k i).e_ij_ n))
          ((c.contact_configuration_ k i).e_ij_ n) / (c.contact_configuration_ k i).r_ij_ n) k s)
      s).particles_.diffusion_dt_ m' i'
      = if m' < c.all_diffusions_size ∧ i' = i then
          s.particles_.diffusion_dt_ m' i + ∑ n in Finset.range q,
            c.contactFlux s.particles_.all_species_ s.contact_particles_ m' i k n
        else s.particles_.diffusion_dt_ m' i' := by
  induction q with
  | zero =>
    simp only [forLoop, Finset.range_zero, Finset.sum_empty, add_zero, true_and]
    intro m' i'
    by_cases hc : m' < c.all_diffusions_size ∧ i' = i
    · rw [if_pos hc, hc.2]
    · rw [if_neg hc]
  | succ q ih =>
    obtain ⟨h0, h1, h2, h3⟩ := ih
    simp only [forLoop]
    obtain ⟨g0, g1, g2, g3⟩ := getDiffusionChangeRateDirichletContact_spec c i
        ((c.contact_configuration_ k i).j_ q) ((c.contact_configuration_ k i).e_ij_ q)
        (2 * Vecd.dot (c.getKernelGradient i ((c.contact_configuration_ k i).j_ q)
          ((c.contact_configuration_ k i).dW_ijV_j_ q) ((c.contact_configuration_ k i).e_ij_ q))
          ((c.contact_configuration_ k i).e_ij_ q) / (c.contact_configuration_ k i).r_ij_ q) k
        (forLoop q (fun n s => c.getDiffusionChangeRateDirichletContact i
          ((c.contact_configuration_ k i).j_ n) ((c.contact_configuration_ k i).e_ij_ n)
          (2 * Vecd.dot (c.getKernelGradient i ((c.contact_configuration_ k i).j_ n)
            ((c.contact_configuration_ k i).dW_ijV_j_ n) ((c.contact_configuration_ k i).e_ij_ n))
            ((c.contact_configuration_ k i).e_ij_ n) / (c.contact_configuration_ k i).r_ij_ n) k s)
          s)
    refine ⟨g0.trans h0, g1.trans h1, g2.trans h2, ?_⟩
    intro m' i'
    rw [g3, h0, h1]
    by_cases hc : m' < c.all_diffusions_size ∧ i' = i
    · rw [if_pos hc, if_pos hc, h3, if_pos ⟨hc.1, rfl⟩, Finset.sum_range_succ, add_assoc]
      rfl
    · rw [if_neg hc, if_neg hc, h3, if_neg hc]

/-- State after the first `nk` iterations of the contact body loop of the
Dirichlet `interaction`. -/
theorem dirichlet_body_loop_spec (c : DiffusionRelaxationDirichlet R np d)
    (i : Fin np) (s : ContactData R np) (nk : Nat) :
    (forLoop nk (fun k s => forLoop (c.contact_configuration_ k i).current_size_
        (fun n s => c.getDiffusionChangeRateDirichletContact i
          ((c.contact_configuration_ k i).j_ n) ((c.contact_configuration_ k i).e_ij_ n)
          (2 * Vecd.dot (c.getKernelGradient i ((c.contact_configuration_ k i).j_ n)
            ((c.contact_configuration_ k i).dW_ijV_j_ n) ((c.contact_configuration_ k i).e_ij_ n))
            ((c.contact_configuration_ k i).e_ij_ n) / (c.contact_configuration_ k i).r_ij_ n) k s)
        s) s).contact_particles_ = s.contact_particles_ ∧
    (forLoop nk (fun k s => forLoop (c.contact_configuration_ k i).current_size_
        (fun n s => c.getDiffusionChangeRateDirichletContact i
          ((c.contact_configuration_ k i).j_ n) ((c.contact_configuration_ k i).e_ij_ n)
          (2 * Vecd.dot (c.getKernelGradient i ((c.contact_configuration_ k i).j_ n)
            ((c.contact_configuration_ k i).dW_ijV_j_ n) ((c.contact_configuration_ k i).e_ij_ n))
            ((c.contact_configuration_ k i).e_ij_ n) / (c.contact_configuration_ k i).r_ij_ n) k s)
        s) s).particles_.all_species_ = s.particles_.all_species_ ∧
    (forLoop nk (fun k s => forLoop (c.contact_configuration_ k i).current_size_
        (fun n s => c.getDiffusionChangeRateDirichletContact i
          ((c.contact_configuration_ k i).j_ n) ((c.contact_configuration_ k i).e_ij_ n)
          (2 * Vecd.dot (c.getKernelGradient i ((c.contact_configuration_ k i).j_ n)
            ((c.contact_configuration_ k i).dW_ijV_j_ n) ((c.contact_configuration_ k i).e_ij_ n))
            ((c.contact_configuration_ k i).e_ij_ n) / (c.contact_configuration_ k i).r_ij_ n) k s)
        s) s).particles_.diffusion_species_s_ = s.particles_.diffusion_species_s_ ∧
    ∀ m' i', (forLoop nk (fun k s => forLoop (c.contact_configuration_ k i).current_size_
        (fun n s => c.getDiffusionChangeRateDirichletContact i
          ((c.contact_configuration_ k i).j_ n) ((c.contact_configuration_ k i).e_ij_ n)
          (2 * Vecd.dot (c.getKernelGradient i ((c.contact_configuration_ k i).j_ n)
            ((c.contact_configuration_ k i).dW_ijV_j_ n) ((c.contact_configuration_ k i).e_ij_ n))
            ((c.contact_configuration_ k i).e_ij_ n) / (c.contact_configuration_ k i).r_ij_ n) k s)
        s) s).particles_.diffusion_dt_ m' i'
      = if m' < c.all_diffusions_size ∧ i' = i then
          s.particles_.diffusion_dt_ m' i
            + c.contactRate s.particles_.all_species_ s.contact_particles_ m' i nk
        else s.particles_.diffusion_dt_ m' i' := by
  induction nk with
  | zero =>
    simp only [forLoop, DiffusionRelaxationDirichlet.contactRate, Finset.range_zero,
      Finset.sum_empty, add_zero, true_and]
    intro m' i'
    by_cases hc : m' < c.all_diffusions_size ∧ i' = i
    · rw [if_pos hc, hc.2]
    · rw [if_neg hc]
  | succ nk ih =>
    obtain ⟨h0, h1, h2, h3⟩ := ih
    simp only [forLoop]
    obtain ⟨g0, g1, g2, g3⟩ := dirichlet_neighbour_loop_spec c i nk
      (forLoop nk (fun k s => forLoop (c.contact_configuration_ k i).current_size_
        (fun n s => c.getDiffusionChangeRateDirichletContact i
          ((c.contact_configuration_ k i).j_ n) ((c.contact_configuration_ k i).e_ij_ n)
          (2 * Vecd.dot (c.getKernelGradient i ((c.contact_configuration_ k i).j_ n)
            ((c.contact_configuration_ k i).dW_ijV_j_ n) ((c.contact_configuration_ k i).e_ij_ n))
            ((c.contact_configuration_ k i).e_ij_ n) / (c.contact_configuration_ k i).r_ij_ n) k s)
        s) s)
      (c.contact_configuration_ nk i).current_size_
    refine ⟨g0.trans h0, g1.trans h1, g2.trans h2, ?_⟩
    intro m' i'
    rw [g3, h0, h1]
    by_cases hc : m' < c.all_diffusions_size ∧ i' = i
    · rw [if_pos hc, if_pos hc, h3, if_pos ⟨hc.1, rfl⟩]
      unfold DiffusionRelaxationDirichlet.contactRate
      rw [Finset.sum_range_succ, add_assoc]
    · rw [if_neg hc, if_neg hc, h3, if_neg hc]

/-- Effect of the Dirichlet `interaction` at one particle on all the data the
operator can reach. -/
theorem dirichlet_interaction_spec (c : DiffusionRelaxationDirichlet R np d)
    (i : Fin np) (dt : R) (s : ContactData R np) :
    (c.interaction i dt s).contact_particles_ = s.contact_particles_ ∧
    (c.interaction i dt s).particles_.all_species_ = s.particles_.all_species_ ∧
    (c.interaction i dt s).particles_.diffusion_species_s_ = s.particles_.diffusion_species_s_ ∧
    ∀ m' i', (c.interaction i dt s).particles_.diffusion_dt_ m' i'
      = if m' < c.all_diffusions_size ∧ i' = i then
          s.particles_.diffusion_dt_ m' i + c.contactRate s.particles_.all_species_
            s.contact_particles_ m' i c.contact_configuration_size
        else s.particles_.diffusion_dt_ m' i' :=
  dirichlet_body_loop_spec c i s c.contact_configuration_size

end ContactLemmas

section ReactionLemmas

variable {R : Type} {np N : Nat}

/-- State of the local array after the first `n` iterations of `loadLocalSpecies`. -/
theorem loadLocalSpecies_loop (reactive_species_ : ReactiveSpecies R N np)
    (local_species : LocalSpecies R N) (index_i : Fin np) (n : Nat) (k : Fin N) :
    forLoop n (fun k local_species =>
        if h : k < N then
          Function.update local_species ⟨k, h⟩ (reactive_species_ ⟨k, h⟩ index_i)
        else local_species) local_species k
      = if k.val < n then reactive_species_ k index_i else local_species k := by
  induction n with
  | zero => simp [forLoop]
  | succ n ih =>
    simp only [forLoop]
    by_cases hn : n < N
    · rw [dif_pos hn]
      by_cases hk : k = ⟨n, hn⟩
      · subst hk; simp
      · have hne : k.val ≠ n := fun h => hk (Fin.ext h)
        rw [Function.update_noteq hk, ih]
        by_cases hlt : k.val < n
        · rw [if_pos hlt, if_pos (by omega)]
        · rw [if_neg hlt, if_neg (by omega)]
    · rw [dif_neg hn, ih]
      have hlt : k.val < n := by omega
      rw [if_pos hlt, if_pos (by omega)]

/-- The call `loadLocalSpecies` fills the whole local array with the values at `index_i`. -/
theorem loadLocalSpecies_spec (reactive_species_ : ReactiveSpecies R N np)
    (local_species : LocalSpecies R N) (index_i : Fin np) :
    BaseReactionRelaxation.loadLocalSpecies reactive_species_ local_species index_i
      = fun k => reactive_species_ k index_i := by
  funext k
  unfold BaseReactionRelaxation.loadLocalSpecies
  rw [loadLocalSpecies_loop, if_pos k.isLt]

/-- State of the arrays after the first `n` iterations of `applyGlobalSpecies`. -/
theorem applyGlobalSpecies_loop (reactive_species_ : ReactiveSpecies R N np)
    (local_species : LocalSpecies R N) (index_i : Fin np) (n : Nat) (k : Fin N) (i : Fin np) :
    forLoop n (fun k reactive_species_ =>
        if h : k < N then
          Function.update reactive_species_ ⟨k, h⟩
            (Function.update (reactive_species_ ⟨k, h⟩) index_i (local_species ⟨k, h⟩))
        else reactive_species_) reactive_species_ k i
      = if k.val < n ∧ i = index_i then local_species k else reactive_species_ k i := by
  induction n with
  | zero => simp [forLoop]
  | succ n ih =>
    simp only [forLoop]
    by_cases hn : n < N
    · rw [dif_pos hn]
      by_cases hk : k = ⟨n, hn⟩
      · subst hk
        rw [Function.update_same]
        by_cases hi : i = index_i
        · subst hi; simp
        · rw [Function.update_noteq hi, ih]
          simp [hi]
      · have hne : k.val ≠ n := fun h => hk (Fin.ext h)
        rw [Function.update_noteq hk, ih]
        by_cases hlt : k.val < n
        · have : k.val < n + 1 := by omega
          simp [hlt, this]
        · have : ¬ k.val < n + 1 := by omega
          simp [hlt, this]
    · rw [dif_neg hn, ih]
      have hlt : k.val < n := by omega
      have : k.val < n + 1 := by omega
      simp [hlt, this]

/-- The call `applyGlobalSpecies` overwrites the entry of `index_i` in every array. -/
theorem applyGlobalSpecies_spec (reactive_species_ : ReactiveSpecies R N np)
    (local_species : LocalSpecies R N) (index_i : Fin np) (k : Fin N) (i : Fin np) :
    BaseReactionRelaxation.applyGlobalSpecies reactive_species_ local_species index_i k i
      = if i = index_i then local_species k else reactive_species_ k i := by
  unfold BaseReactionRelaxation.applyGlobalSpecies
  rw [applyGlobalSpecies_loop]
  simp [k.isLt]

/-- The ascending species loop, run for `n` iterations from the local array `x`:
entries from `n` on are untouched, and every entry `m` below `n` is the
single-species step from `x m` with the rates evaluated at the array that holds
the new values below `m` and the old values from `m` on. -/
theorem forward_loop_spec (c : BaseReactionRelaxation R N) (dt : R) (x : LocalSpecies R N)
    (n : Nat) :
    (∀ j : Fin N, n ≤ j.val → forLoop n (fun k l => c.advanceSpecies dt k l) x j = x j) ∧
    ∀ m : Fin N, m.val < n →
      forLoop n (fun k l => c.advanceSpecies dt k l) x m
        = c.updateAReactionSpecies (x m)
            (c.get_production_rates_ m (fun j =>
              if j.val < m.val then forLoop n (fun k l => c.advanceSpecies dt k l) x j else x j))
            (c.get_loss_rates_ m (fun j =>
              if j.val < m.val then forLoop n (fun k l => c.advanceSpecies dt k l) x j else x j))
            dt := by
  induction n with
  | zero =>
    exact ⟨fun _ _ => rfl, fun m hm => absurd hm (Nat.not_lt_zero _)⟩
  | succ n ih =>
    obtain ⟨ih1, ih2⟩ := ih
    by_cases hn : n < N
    · have hstep : ∀ j : Fin N, forLoop (n + 1) (fun k l => c.advanceSpecies dt k l) x j
          = if j = ⟨n, hn⟩ then
              c.updateAReactionSpecies (forLoop n (fun k l => c.advanceSpecies dt k l) x ⟨n, hn⟩)
                (c.get_production_rates_ ⟨n, hn⟩ (forLoop n (fun k l => c.advanceSpecies dt k l) x))
                (c.get_loss_rates_ ⟨n, hn⟩ (forLoop n (fun k l => c.advanceSpecies dt k l) x)) dt
            else forLoop n (fun k l => c.advanceSpecies dt k l) x j := by
        intro j
        show c.advanceSpecies dt n (forLoop n (fun k l => c.advanceSpecies dt k l) x) j = _
        unfold BaseReactionRelaxation.advanceSpecies
        rw [dif_pos hn]
        by_cases hj : j = ⟨n, hn⟩
        · subst hj; simp
        · simp only [Function.update_noteq hj, if_neg hj]
      have hlow : ∀ j : Fin N, j.val < n →
          forLoop (n + 1) (fun k l => c.advanceSpecies dt k l) x j
            = forLoop n (fun k l => c.advanceSpecies dt k l) x j := by
        intro j hj
        rw [hstep j, if_neg (fun h => by rw [h] at hj; exact Nat.lt_irrefl _ hj)]
      constructor
      · intro j hj
        rw [hstep j, if_neg (fun h => by rw [h] at hj; simp at hj), ih1 j (by omega)]
      · intro m hm
        by_cases hmn : m = ⟨n, hn⟩
        · subst hmn
          have hv : (fun j : Fin N => if j.val < n then
              forLoop (n + 1) (fun k l => c.advanceSpecies dt k l) x j else x j)
              = forLoop n (fun k l => c.advanceSpecies dt k l) x := by
            funext j
            by_cases hj : j.val < n
            · rw [if_pos hj, hlow j hj]
            · rw [if_neg hj, ih1 j (by omega)]
          rw [hstep, if_pos rfl, ih1 ⟨n, hn⟩ (le_refl _)]
          simp only [hv]
        · have hlt : m.val < n := by
            have : m.val ≠ n := fun h => hmn (Fin.ext h)
            omega
          have hv : (fun j : Fin N => if j.val < m.val then
              forLoop (n + 1) (fun k l => c.advanceSpecies dt k l) x j else x j)
              = fun j : Fin N => if j.val < m.val then
                forLoop n (fun k l => c.advanceSpecies dt k l) x j else x j := by
            funext j
            by_cases hj : j.val < m.val
            · rw [if_pos hj, if_pos hj, hlow j (by omega)]
            · rw [if_neg hj, if_neg hj]
          rw [hlow m hlt, hv]
          exact ih2 m hlt
    · have hstep : forLoop (n + 1) (fun k l => c.advanceSpecies dt k l) x
          = forLoop n (fun k l => c.advanceSpecies dt k l) x := by
        show c.advanceSpecies dt n (forLoop n (fun k l => c.advanceSpecies dt k l) x) = _
        unfold BaseReactionRelaxation.advanceSpecies
        rw [dif_neg hn]
      rw [hstep]
      exact ⟨fun j hj => ih1 j (by omega), fun m _ => ih2 m (by omega)⟩

/-- The descending species loop, started at index `n - 1` from the local array
`x`: entries from `n` on are untouched, and every entry `m` below `n` is the
single-species step from `x m` with the rates evaluated at the array that holds
the old values up to `m` and the new values above `m`. -/
theorem backward_loop_spec (c : BaseReactionRelaxation R N) (dt : R) (n : Nat)
    (x : LocalSpecies R N) :
    (∀ j : Fin N, n ≤ j.val → forLoopDown n (fun k l => c.advanceSpecies dt k l) x j = x j) ∧
    ∀ m : Fin N, m.val < n →
      forLoopDown n (fun k l => c.advanceSpecies dt k l) x m
        = c.updateAReactionSpecies (x m)
            (c.get_production_rates_ m (fun j =>
              if j.val ≤ m.val then x j
              else forLoopDown n (fun k l => c.advanceSpecies dt k l) x j))
            (c.get_loss_rates_ m (fun j =>
              if j.val ≤ m.val then x j
              else forLoopDown n (fun k l => c.advanceSpecies dt k l) x j))
            dt := by
  induction n generalizing x with
  | zero =>
    exact ⟨fun _ _ => rfl, fun m hm => absurd hm (Nat.not_lt_zero _)⟩
  | succ n ih =>
    obtain ⟨ih1, ih2⟩ := ih (c.advanceSpecies dt n x)
    have hunfold : forLoopDown (n + 1) (fun k l => c.advanceSpecies dt k l) x
        = forLoopDown n (fun k l => c.advanceSpecies dt k l) (c.advanceSpecies dt n x) := rfl
    by_cases hn : n < N
    · have hbody : ∀ j : Fin N, c.advanceSpecies dt n x j
          = if j = ⟨n, hn⟩ then
              c.updateAReactionSpecies (x ⟨n, hn⟩) (c.get_production_rates_ ⟨n, hn⟩ x)
                (c.get_loss_rates_ ⟨n, hn⟩ x) dt
            else x j := by
        intro j
        unfold BaseReactionRelaxation.advanceSpecies
        rw [dif_pos hn]
        by_cases hj : j = ⟨n, hn⟩
        · subst hj; simp
        · simp only [Function.update_noteq hj, if_neg hj]
      have hother : ∀ j : Fin N, j.val ≠ n → c.advanceSpecies dt n x j = x j := by
        intro j hj
        rw [hbody j, if_neg (fun h => hj (by rw [h]))]
      constructor
      · intro j hj
        rw [hunfold, ih1 j (by omega), hother j (by omega)]
      · intro m hm
        rw [hunfold]
        by_cases hmn : m = ⟨n, hn⟩
        · subst hmn
          have hw : (fun j : Fin N => if j.val ≤ n then x j
              else forLoopDown n (fun k l => c.advanceSpecies dt k l)
                (c.advanceSpecies dt n x) j) = x := by
            funext j
            by_cases hj : j.val ≤ n
            · rw [if_pos hj]
            · rw [if_neg hj, ih1 j (by omega), hother j (by omega)]
          rw [ih1 ⟨n, hn⟩ (le_refl _), hbody, if_pos rfl]
          simp only [hw]
        · have hlt : m.val < n := by
            have : m.val ≠ n := fun h => hmn (Fin.ext h)
            omega
          have hw : (fun j : Fin N => if j.val ≤ m.val then c.advanceSpecies dt n x j
              else forLoopDown n (fun k l => c.advanceSpecies dt k l)
                (c.advanceSpecies dt n x) j)
              = fun j : Fin N => if j.val ≤ m.val then x j
                else forLoopDown n (fun k l => c.advanceSpecies dt k l)
                  (c.advanceSpecies dt n x) j := by
            funext j
            by_cases hj : j.val ≤ m.val
            · rw [if_pos hj, if_pos hj, hother j (by omega)]
            · rw [if_neg hj, if_neg hj]
          rw [ih2 m hlt, hw, hother m (by omega)]
    · have hbody : c.advanceSpecies dt n x = x := by
        unfold BaseReactionRelaxation.advanceSpecies
        rw [dif_neg hn]
      rw [hunfold, hbody]
      rw [hbody] at ih1 ih2
      exact ⟨fun j hj => ih1 j (by omega), fun m _ => ih2 m (by omega)⟩

/-- The forward sweep writes the result of the ascending species loop to the
entries of `index_i` and nothing else. -/
theorem advanceForwardStep_apply (c : BaseReactionRelaxation R N)
    (uninitialized : LocalSpecies R N) (index_i : Fin np) (dt : R)
    (reactive_species_ : ReactiveSpecies R N np) (k : Fin N) (i : Fin np) :
    c.advanceForwardStep uninitialized index_i dt reactive_species_ k i
      = if i = index_i then
          forLoop N (fun k l => c.advanceSpecies dt k l) (fun k => reactive_species_ k index_i) k
        else reactive_species_ k i := by
  unfold BaseReactionRelaxation.advanceForwardStep
  simp only [applyGlobalSpecies_spec, loadLocalSpecies_spec]

/-- The backward sweep writes the result of the descending species loop to the
entries of `index_i` and nothing else. -/
theorem advanceBackwardStep_apply (c : BaseReactionRelaxation R N)
    (uninitialized : LocalSpecies R N) (index_i : Fin np) (dt : R)
    (reactive_species_ : ReactiveSpecies R N np) (k : Fin N) (i : Fin np) :
    c.advanceBackwardStep uninitialized index_i dt reactive_species_ k i
      = if i = index_i then
          forLoopDown N (fun k l => c.advanceSpecies dt k l)
            (fun k => reactive_species_ k index_i) k
        else reactive_species_ k i := by
  unfold BaseReactionRelaxation.advanceBackwardStep
  simp only [applyGlobalSpecies_spec, loadLocalSpecies_spec]

/-- With production and loss rates that do not depend on the species vector, a
forward sweep followed by a backward sweep, both over the step `h`, applies the
single-species step twice to every reactive species. What that amounts to
depends on the single-species step alone, which is a parameter here. -/
theorem constant_rates_two_sweeps (c : BaseReactionRelaxation R N) (p l : Fin N → R)
    (hp : ∀ k v, c.get_production_rates_ k v = p k) (hl : ∀ k v, c.get_loss_rates_ k v = l k)
    (u u' : LocalSpecies R N) (i : Fin np) (h : R) (reactive_species_ : ReactiveSpecies R N np)
    (k : Fin N) :
    c.advanceBackwardStep u' i h (c.advanceForwardStep u i h reactive_species_) k i
      = c.updateAReactionSpecies
          (c.updateAReactionSpecies (reactive_species_ k i) (p k) (l k) h) (p k) (l k) h := by
  rw [advanceBackwardStep_apply, if_pos rfl,
    (backward_loop_spec c h N _).2 k k.isLt, hp, hl]
  simp only [advanceForwardStep_apply, if_true]
  rw [(forward_loop_spec c h _ N).2 k k.isLt, hp, hl]

end ReactionLemmas

/-- C1 (zero-gradient stability): if for every diffusion the gradient-source
field has the same value at all particles, then `interaction` on all particles
followed by `update` on all particles leaves the species store unchanged, and
every change-rate accumulator of a diffusion is exactly `0`; this holds for any
neighbour records, kernel data, coefficient function and `dt`. -/
theorem zero_gradient_stability {R : Type} [Field R] {np d : Nat}
    (c : DiffusionRelaxationInner R np d) (dt : R) (s : DiffusionReactionParticles R np)
    (huniform : ∀ m, m < c.all_diffusions_size → ∀ i j : Fin np,
      s.all_species_ (c.gradient_species_indexes m) i
        = s.all_species_ (c.gradient_species_indexes m) j) :
    (c.exec dt s).all_species_ = s.all_species_ ∧
    ∀ m, m < c.all_diffusions_size → ∀ i, (c.exec dt s).diffusion_dt_ m i = 0 := by
  obtain ⟨_, h2, h3⟩ := exec_spec c dt s
  constructor
  · funext k i
    rw [h3 k i]
    have : ∑ m in (Finset.range c.all_diffusions_size).filter
        (fun m => c.diffusion_species_indexes m = k), dt * c.changeRate s.all_species_ m i = 0 := by
      apply Finset.sum_eq_zero
      intro m hm
      have hlt : m < c.all_diffusions_size := Finset.mem_range.mp (Finset.mem_filter.mp hm).1
      rw [changeRate_eq_zero_of_uniform c s.all_species_ m (huniform m hlt) i, mul_zero]
    rw [this, add_zero]
  · intro m hm i
    rw [h2 m i, if_pos hm, changeRate_eq_zero_of_uniform c s.all_species_ m (huniform m hm) i]

/-- C1 at the two-particle configuration with the value `5` at both particles. -/
theorem zero_gradient_stability_witness :
    (∀ m, m < sampleInner.all_diffusions_size → ∀ i j : Fin 2,
      sampleUniformData.all_species_ (sampleInner.gradient_species_indexes m) i
        = sampleUniformData.all_species_ (sampleInner.gradient_species_indexes m) j) ∧
    (sampleInner.exec (1 / 10) sampleUniformData).all_species_ = sampleUniformData.all_species_ ∧
    ∀ m, m < sampleInner.all_diffusions_size → ∀ i,
      (sampleInner.exec (1 / 10) sampleUniformData).diffusion_dt_ m i = 0 :=
  ⟨fun _ _ _ _ => rfl,
    zero_gradient_stability sampleInner (1 / 10) sampleUniformData (fun _ _ _ _ => rfl)⟩

/-- C2 (conservation): over a reciprocal inner neighbour relation (every
neighbour is listed once, and every record `i -> j` has a record `j -> i` with
the opposite unit direction), with a symmetric coefficient
`D(i, j, e) = D(j, i, -e)` and symmetric volume-weighted contact areas
`V_i * area_ij = V_j * area_ji`, one inner diffusion step (`interaction` on all
particles, then `update` on all particles) leaves the sum over all particles of
`V_i * value_i` unchanged, for every species field and every `dt`. -/
theorem conservation {R : Type} [Field R] {np d : Nat}
    (c : DiffusionRelaxationInner R np d) (V : Fin np → R) (dt : R)
    (s : DiffusionReactionParticles R np)
    (hdistinct : ∀ (i : Fin np) (n n' : Nat), n < (c.inner_configuration_ i).current_size_ →
      n' < (c.inner_configuration_ i).current_size_ →
      (c.inner_configuration_ i).j_ n = (c.inner_configuration_ i).j_ n' → n = n')
    (hrecip : ∀ (i : Fin np) (n : Nat), n < (c.inner_configuration_ i).current_size_ →
      ∃ n', n' < (c.inner_configuration_ ((c.inner_configuration_ i).j_ n)).current_size_ ∧
        (c.inner_configuration_ ((c.inner_configuration_ i).j_ n)).j_ n' = i ∧
        (c.inner_configuration_ ((c.inner_configuration_ i).j_ n)).e_ij_ n'
          = -(c.inner_configuration_ i).e_ij_ n)
    (hcoff : ∀ (m : Nat) (i j : Fin np) (e : Vecd R d),
      c.getInterParticleDiffusionCoff m i j e = c.getInterParticleDiffusionCoff m j i (-e))
    (harea : ∀ (i : Fin np) (n n' : Nat), n < (c.inner_configuration_ i).current_size_ →
      n' < (c.inner_configuration_ ((c.inner_configuration_ i).j_ n)).current_size_ →
      (c.inner_configuration_ ((c.inner_configuration_ i).j_ n)).j_ n' = i →
      V i * c.area i n
        = V ((c.inner_configuration_ i).j_ n) * c.area ((c.inner_configuration_ i).j_ n) n')
    (k : Nat) :
    ∑ i, V i * (c.exec dt s).all_species_ k i = ∑ i, V i * s.all_species_ k i := by
  obtain ⟨_, _, h3⟩ := exec_spec c dt s
  simp only [h3, mul_add, Finset.sum_add_distrib, Finset.mul_sum]
  rw [Finset.sum_comm]
  have : ∀ m ∈ (Finset.range c.all_diffusions_size).filter
        (fun m => c.diffusion_species_indexes m = k),
      ∑ i, V i * (dt * c.changeRate s.all_species_ m i) = 0 := by
    intro m _
    have h0 := sum_volume_changeRate c V s.all_species_ m hdistinct hrecip hcoff harea
    calc ∑ i, V i * (dt * c.changeRate s.all_species_ m i)
        = dt * ∑ i, V i * c.changeRate s.all_species_ m i := by
          rw [Finset.mul_sum]
          apply Finset.sum_congr rfl
          intro i _
          ring
      _ = 0 := by rw [h0, mul_zero]
  rw [Finset.sum_congr rfl this, Finset.sum_const_zero, add_zero]

theorem sampleInner_size (i : Fin 2) : (sampleInner.inner_configuration_ i).current_size_ = 1 := by
  fin_cases i <;> rfl

theorem sampleInner_j (i : Fin 2) (n : Nat) :
    (sampleInner.inner_configuration_ i).j_ n = if i = 0 then 1 else 0 := by
  fin_cases i <;> rfl

theorem sampleInner_e (i : Fin 2) (n : Nat) :
    (sampleInner.inner_configuration_ i).e_ij_ n = fun _ => if i = 0 then -1 else 1 := by
  fin_cases i <;> rfl

theorem sampleInner_area (i : Fin 2) (n : Nat) : sampleInner.area i n = -1 := by
  fin_cases i <;>
    simp [DiffusionRelaxationInner.area, sampleInner, sampleNeighborhood, Vecd.dot] <;> norm_num

/-- C2 at the two-particle configuration with unit volumes and `dt = 1/10`. -/
theorem conservation_witness :
    ∑ i, (fun _ : Fin 2 => (1 : ℚ)) i * (sampleInner.exec (1 / 10) sampleData).all_species_ 0 i
      = ∑ i, (fun _ : Fin 2 => (1 : ℚ)) i * sampleData.all_species_ 0 i :=
  conservation sampleInner (fun _ => 1) (1 / 10) sampleData
    (fun i n n' hn hn' _ => by
      rw [sampleInner_size] at hn hn'
      omega)
    (fun i n hn => ⟨0, by rw [sampleInner_size]; decide, by
      rw [sampleInner_j, sampleInner_j]
      fin_cases i <;> simp, by
      rw [sampleInner_e, sampleInner_e, sampleInner_j]
      fin_cases i <;> (funext _; simp)⟩)
    (fun _ _ _ _ => rfl)
    (fun i n n' _ _ _ => by rw [sampleInner_area, sampleInner_area])
    0

/-- C3 (Dirichlet non-mutation): `DiffusionRelaxationDirichlet::interaction(i, dt)`
leaves the species store of every contact body and the species store of the
owning body as they were, and every change-rate array of the owning body
differs from its old content at most in the entry of particle `i`. -/
theorem dirichlet_non_mutation {R : Type} [Field R] {np d : Nat}
    (c : DiffusionRelaxationDirichlet R np d) (i : Fin np) (dt : R) (s : ContactData R np) :
    (c.interaction i dt s).contact_particles_ = s.contact_particles_ ∧
    (c.interaction i dt s).particles_.all_species_ = s.particles_.all_species_ ∧
    ∀ m, ∃ v, (c.interaction i dt s).particles_.diffusion_dt_ m
      = Function.update (s.particles_.diffusion_dt_ m) i v := by
  obtain ⟨h0, h1, _, h3⟩ := dirichlet_interaction_spec c i dt s
  refine ⟨h0, h1, fun m => ⟨(c.interaction i dt s).particles_.diffusion_dt_ m i, ?_⟩⟩
  funext i'
  by_cases hi : i' = i
  · subst hi; simp
  · rw [Function.update_noteq hi, h3 m i', if_neg (fun h => hi h.2)]

/-- The contact body loop of the constructor for one diffusion: it appends the
name to the vector of every contact body, unless a body lacks the name. -/
theorem construct_body_loop (p : ContactSetup) (name : String) (nc : Nat)
    (names : Nat → List String) :
    ((∀ k, k < nc → (p.AllSpeciesIndexMap k name).isSome = true) →
      forLoopM nc (fun k names =>
          if (p.AllSpeciesIndexMap k name).isSome then
            some (Function.update names k (names k ++ [name]))
          else none) names
        = some (fun k => if k < nc then names k ++ [name] else names k)) ∧
    ((∃ k, k < nc ∧ p.AllSpeciesIndexMap k name = none) →
      forLoopM nc (fun k names =>
          if (p.AllSpeciesIndexMap k name).isSome then
            some (Function.update names k (names k ++ [name]))
          else none) names
        = none) := by
  induction nc with
  | zero =>
    refine ⟨fun _ => ?_, fun h => ?_⟩
    · simp [forLoopM]
    · obtain ⟨k, hk, _⟩ := h
      omega
  | succ nc ih =>
    obtain ⟨ih1, ih2⟩ := ih
    refine ⟨fun h => ?_, fun h => ?_⟩
    · simp only [forLoopM]
      rw [ih1 (fun k hk => h k (by omega))]
      simp only [Option.some_bind, h nc (by omega), if_true, lt_irrefl, if_false]
      congr 1
      funext k
      by_cases hk : k = nc
      · subst hk; simp
      · rw [Function.update_noteq hk]
        by_cases hlt : k < nc
        · have : k < nc + 1 := by omega
          simp [hlt, this]
        · have : ¬ k < nc + 1 := by omega
          simp [hlt, this]
    · simp only [forLoopM]
      obtain ⟨k, hk, hnone⟩ := h
      by_cases hprev : ∃ k, k < nc ∧ p.AllSpeciesIndexMap k name = none
      · rw [ih2 hprev]; rfl
      · have hall : ∀ k, k < nc → (p.AllSpeciesIndexMap k name).isSome = true := by
          intro k' hk'
          rw [Option.isSome_iff_ne_none]
          intro hn
          exact hprev ⟨k', hk', hn⟩
        have hkn : k = nc := by
          by_contra hne
          exact hprev ⟨k, by omega, hnone⟩
        subst hkn
        rw [ih1 hall]
        simp [hnone]

/-- The whole constructor, run for the first `nd` diffusions. -/
theorem construct_loop (p : ContactSetup) (nd : Nat) :
    ((∀ m, m < nd → ∀ k, k < p.contact_particles_size →
        (p.AllSpeciesIndexMap k (p.all_species_names (p.gradient_species_index_ m))).isSome = true) →
      forLoopM nd (fun m names =>
          forLoopM p.contact_particles_size (fun k names =>
            if (p.AllSpeciesIndexMap k (p.all_species_names (p.gradient_species_index_ m))).isSome
            then some (Function.update names k
              (names k ++ [p.all_species_names (p.gradient_species_index_ m)]))
            else none) names) (fun _ => [])
        = some (fun k => if k < p.contact_particles_size then
            (List.range nd).map (fun m => p.all_species_names (p.gradient_species_index_ m))
          else [])) ∧
    ((∃ m, m < nd ∧ ∃ k, k < p.contact_particles_size ∧
        p.AllSpeciesIndexMap k (p.all_species_names (p.gradient_species_index_ m)) = none) →
      forLoopM nd (fun m names =>
          forLoopM p.contact_particles_size (fun k names =>
            if (p.AllSpeciesIndexMap k (p.all_species_names (p.gradient_species_index_ m))).isSome
            then some (Function.update names k
              (names k ++ [p.all_species_names (p.gradient_species_index_ m)]))
            else none) names) (fun _ => [])
        = none) := by
  induction nd with
  | zero =>
    refine ⟨fun _ => ?_, fun h => ?_⟩
    · simp [forLoopM]
    · obtain ⟨m, hm, _⟩ := h
      omega
  | succ nd ih =>
    obtain ⟨ih1, ih2⟩ := ih
    refine ⟨fun h => ?_, fun h => ?_⟩
    · simp only [forLoopM]
      rw [ih1 (fun m hm => h m (by omega))]
      simp only [Option.some_bind]
      rw [(construct_body_loop p _ p.contact_particles_size _).1 (h nd (by omega))]
      congr 1
      funext k
      by_cases hk : k < p.contact_particles_size
      · simp [hk, List.range_succ]
      · simp [hk]
    · simp only [forLoopM]
      by_cases hprev : ∃ m, m < nd ∧ ∃ k, k < p.contact_particles_size ∧
          p.AllSpeciesIndexMap k (p.all_species_names (p.gradient_species_index_ m)) = none
      · rw [ih2 hprev]; rfl
      · have hall : ∀ m, m < nd → ∀ k, k < p.contact_particles_size →
            (p.AllSpeciesIndexMap k
              (p.all_species_names (p.gradient_species_index_ m))).isSome = true := by
          intro m hm k hk
          rw [Option.isSome_iff_ne_none]
          intro hn
          exact hprev ⟨m, hm, k, hk, hn⟩
        obtain ⟨m, hm, k, hk, hnone⟩ := h
        have hmn : m = nd := by
          by_contra hne
          exact hprev ⟨m, by omega, k, hk, hnone⟩
        subst hmn
        rw [ih1 hall]
        simp only [Option.some_bind]
        exact (construct_body_loop p _ p.contact_particles_size _).2 ⟨k, hk, hnone⟩

/-- C4 (construction failure): the constructor of `BaseDiffusionRelaxationContact`
reaches `exit(1)` if and only if some diffusion `m` and some contact body `k`
exist such that the name of the gradient-source species of `m` is absent from
the species index map of body `k`; with no diffusions, or with no contact
bodies, it never does. -/
theorem construction_failure (p : ContactSetup) :
    (BaseDiffusionRelaxationContact.construct p = none ↔
      ∃ m, m < p.all_diffusions_size ∧ ∃ k, k < p.contact_particles_size ∧
        p.AllSpeciesIndexMap k (p.all_species_names (p.gradient_species_index_ m)) = none) ∧
    BaseDiffusionRelaxationContact.construct { p with all_diffusions_size := 0 } ≠ none ∧
    BaseDiffusionRelaxationContact.construct { p with contact_particles_size := 0 } ≠ none := by
  have key : ∀ p : ContactSetup, BaseDiffusionRelaxationContact.construct p = none ↔
      ∃ m, m < p.all_diffusions_size ∧ ∃ k, k < p.contact_particles_size ∧
        p.AllSpeciesIndexMap k (p.all_species_names (p.gradient_species_index_ m)) = none := by
    intro p
    constructor
    · intro hnone
      by_contra hno
      have hall : ∀ m, m < p.all_diffusions_size → ∀ k, k < p.contact_particles_size →
          (p.AllSpeciesIndexMap k
            (p.all_species_names (p.gradient_species_index_ m))).isSome = true := by
        intro m hm k hk
        rw [Option.isSome_iff_ne_none]
        intro hn
        exact hno ⟨m, hm, k, hk, hn⟩
      have := (construct_loop p p.all_diffusions_size).1 hall
      unfold BaseDiffusionRelaxationContact.construct at hnone
      rw [hnone] at this
      exact Option.noConfusion this
    · intro h
      exact (construct_loop p p.all_diffusions_size).2 h
  refine ⟨key p, ?_, ?_⟩
  · rw [Ne, key]
    rintro ⟨m, hm, _⟩
    exact Nat.not_lt_zero m hm
  · rw [Ne, key]
    rintro ⟨m, _, k, hk, _⟩
    exact Nat.not_lt_zero k hk

/-- C5 (RK2 / Heun step): for every diffusion `m`,
`DiffusionRelaxationRK2::exec(dt)` over an inner first stage copies the pre-step
value `u0` of the diffusive field to the snapshot buffer, and sets the value at
every particle `i` to `0.5 * u0_i + 0.5 * (u1_i + dt * R_i(u1))`, where
`u1 = u0 + dt * R(u0)` is the state after the plain forward-Euler step and `R`
is the flux sum the inner interaction pass computes at a state; equivalently
the result is `u0_i + (dt / 2) * (R_i(u0) + R_i(u1))`. -/
theorem rk2_heun_step {R : Type} [Field R] [CharZero R] {np d : Nat}
    (c : DiffusionRelaxationInner R np d) (dt : R) (s : DiffusionReactionParticles R np)
    (m : Nat) (hm : m < c.all_diffusions_size) (i : Fin np) :
    (DiffusionRelaxationRK2.exec c dt s).diffusion_species_s_ m i
      = s.all_species_ (c.diffusion_species_indexes m) i ∧
    (c.exec dt s).all_species_ (c.diffusion_species_indexes m) i
      = s.all_species_ (c.diffusion_species_indexes m) i + dt * c.changeRate s.all_species_ m i ∧
    (DiffusionRelaxationRK2.exec c dt s).all_species_ (c.diffusion_species_indexes m) i
      = 1 / 2 * s.all_species_ (c.diffusion_species_indexes m) i
        + 1 / 2 * ((c.exec dt s).all_species_ (c.diffusion_species_indexes m) i
            + dt * c.changeRate (c.exec dt s).all_species_ m i) ∧
    (DiffusionRelaxationRK2.exec c dt s).all_species_ (c.diffusion_species_indexes m) i
      = s.all_species_ (c.diffusion_species_indexes m) i
        + dt / 2 * (c.changeRate s.all_species_ m i
            + c.changeRate (c.exec dt s).all_species_ m i) := by
  have huniq : ∀ m', m' < c.all_diffusions_size →
      c.diffusion_species_indexes m' = c.diffusion_species_indexes m → m' = m :=
    fun m' hm' h => c.diffusion_species_distinct m' m hm' hm h
  obtain ⟨h1, h2⟩ := rk2_exec_spec c dt s m hm huniq i
  have h3 := exec_single_feed c dt s m hm huniq i
  refine ⟨h1, h3, h2, ?_⟩
  rw [h2, h3]
  ring

/-- C5 at the two-particle configuration with `dt = 1/10`. -/
theorem rk2_heun_step_witness :
    (DiffusionRelaxationRK2.exec sampleInner (1 / 10) sampleData).all_species_
        (sampleInner.diffusion_species_indexes 0) 0
      = sampleData.all_species_ (sampleInner.diffusion_species_indexes 0) 0
        + (1 / 10) / 2 * (sampleInner.changeRate sampleData.all_species_ 0 0
            + sampleInner.changeRate (sampleInner.exec (1 / 10) sampleData).all_species_ 0 0) :=
  (rk2_heun_step sampleInner (1 / 10) sampleData 0 (by decide) 0).2.2.2

/-- C6 (RK2 order): let the gradient source of diffusion `m` be its own
diffusive field, and let `L` be the flux operator of `m` on that field (a
linear operator, the coefficients being functions of the particle pair and
direction only). Then the plain forward-Euler step maps the
field `u0` to `u0 + dt * L u0`, `DiffusionRelaxationRK2::exec(dt)` maps it to
`u0 + dt * L u0 + (dt^2 / 2) * L (L u0)`, the Taylor expansion of the solution
of `du/dt = L u` through second order, and the two results differ by exactly
`(dt^2 / 2) * L (L u0)`. -/
theorem rk2_second_order {R : Type} [Field R] [CharZero R] {np d : Nat}
    (c : DiffusionRelaxationInner R np d) (dt : R) (s : DiffusionReactionParticles R np)
    (m : Nat) (hm : m < c.all_diffusions_size)
    (hself : c.gradient_species_indexes m = c.diffusion_species_indexes m) (i : Fin np) :
    (∀ (u v : Fin np → R) (a b : R) (i : Fin np),
      c.fluxOperator m (fun i => a * u i + b * v i) i
        = a * c.fluxOperator m u i + b * c.fluxOperator m v i) ∧
    (c.exec dt s).all_species_ (c.diffusion_species_indexes m) i
      = s.all_species_ (c.diffusion_species_indexes m) i
        + dt * c.fluxOperator m (s.all_species_ (c.diffusion_species_indexes m)) i ∧
    (DiffusionRelaxationRK2.exec c dt s).all_species_ (c.diffusion_species_indexes m) i
      = s.all_species_ (c.diffusion_species_indexes m) i
        + dt * c.fluxOperator m (s.all_species_ (c.diffusion_species_indexes m)) i
        + dt ^ 2 / 2 * c.fluxOperator m
            (c.fluxOperator m (s.all_species_ (c.diffusion_species_indexes m))) i ∧
    (DiffusionRelaxationRK2.exec c dt s).all_species_ (c.diffusion_species_indexes m) i
        - (c.exec dt s).all_species_ (c.diffusion_species_indexes m) i
      = dt ^ 2 / 2 * c.fluxOperator m
          (c.fluxOperator m (s.all_species_ (c.diffusion_species_indexes m))) i := by
  have huniq : ∀ m', m' < c.all_diffusions_size →
      c.diffusion_species_indexes m' = c.diffusion_species_indexes m → m' = m :=
    fun m' hm' h => c.diffusion_species_distinct m' m hm' hm h
  have hE : ∀ i, (c.exec dt s).all_species_ (c.diffusion_species_indexes m) i
      = s.all_species_ (c.diffusion_species_indexes m) i
        + dt * c.fluxOperator m (s.all_species_ (c.diffusion_species_indexes m)) i := by
    intro i
    rw [exec_single_feed c dt s m hm huniq i, changeRate_eq_fluxOperator, hself]
  have hfun : (c.exec dt s).all_species_ (c.diffusion_species_indexes m)
      = fun i => 1 * s.all_species_ (c.diffusion_species_indexes m) i
        + dt * c.fluxOperator m (s.all_species_ (c.diffusion_species_indexes m)) i := by
    funext i
    rw [hE i, one_mul]
  have hR : (DiffusionRelaxationRK2.exec c dt s).all_species_ (c.diffusion_species_indexes m) i
      = s.all_species_ (c.diffusion_species_indexes m) i
        + dt * c.fluxOperator m (s.all_species_ (c.diffusion_species_indexes m)) i
        + dt ^ 2 / 2 * c.fluxOperator m
            (c.fluxOperator m (s.all_species_ (c.diffusion_species_indexes m))) i := by
    rw [(rk2_exec_spec c dt s m hm huniq i).2, changeRate_eq_fluxOperator, hself, hE i, hfun,
      fluxOperator_linear]
    ring
  refine ⟨fluxOperator_linear c m, hE i, hR, ?_⟩
  rw [hR, hE i]
  ring

/-- C6 at the two-particle configuration with `dt = 1/10`. -/
theorem rk2_second_order_witness :
    (DiffusionRelaxationRK2.exec sampleInner (1 / 10) sampleData).all_species_
        (sampleInner.diffusion_species_indexes 0) 0
      - (sampleInner.exec (1 / 10) sampleData).all_species_
        (sampleInner.diffusion_species_indexes 0) 0
      = (1 / 10) ^ 2 / 2 * sampleInner.fluxOperator 0
          (sampleInner.fluxOperator 0
            (sampleData.all_species_ (sampleInner.diffusion_species_indexes 0))) 0 :=
  (rk2_second_order sampleInner (1 / 10) sampleData 0 (by decide) rfl 0).2.2.2

/-- C8 (forward sweep is Gauss-Seidel in ascending order): after
`advanceForwardStep(i, dt)` the stored value of every reactive species `k` at
`i` is `step(x_k, P_k(v_k), L_k(v_k), dt)`, where `x` holds the reactive values
at `i` before the call, `step` is the single-species update and `v_k` holds the
new values at the entries below `k` and the old values `x` from `k` on. -/
theorem forward_sweep_gauss_seidel {R : Type} {np N : Nat} (c : BaseReactionRelaxation R N)
    (uninitialized : LocalSpecies R N) (i : Fin np) (dt : R)
    (reactive_species_ : ReactiveSpecies R N np) (k : Fin N) :
    c.advanceForwardStep uninitialized i dt reactive_species_ k i
      = c.updateAReactionSpecies (reactive_species_ k i)
          (c.get_production_rates_ k (fun j =>
            if j.val < k.val then c.advanceForwardStep uninitialized i dt reactive_species_ j i
            else reactive_species_ j i))
          (c.get_loss_rates_ k (fun j =>
            if j.val < k.val then c.advanceForwardStep uninitialized i dt reactive_species_ j i
            else reactive_species_ j i))
          dt := by
  have hval : ∀ j : Fin N, c.advanceForwardStep uninitialized i dt reactive_species_ j i
      = forLoop N (fun k l => c.advanceSpecies dt k l) (fun k => reactive_species_ k i) j := by
    intro j
    rw [advanceForwardStep_apply, if_pos rfl]
  simp only [hval]
  exact (forward_loop_spec c dt (fun k => reactive_species_ k i) N).2 k k.isLt

/-- C9 (backward sweep): `advanceBackwardStep(i, dt)` applies the same
per-species rule to every reactive species index once, in the order
`N - 1, ..., 0`: the stored value of every species `m` at `i` becomes
`step(x_m, P_m(w_m), L_m(w_m), dt)`, where `w_m` holds the old values `x` at the
entries up to `m` and the new values above `m`; with `N = 0` the call changes
nothing. -/
theorem backward_sweep_descending {R : Type} {np : Nat} :
    (∀ (N : Nat) (c : BaseReactionRelaxation R N) (uninitialized : LocalSpecies R N)
      (i : Fin np) (dt : R) (reactive_species_ : ReactiveSpecies R N np) (m : Fin N),
      c.advanceBackwardStep uninitialized i dt reactive_species_ m i
        = c.updateAReactionSpecies (reactive_species_ m i)
            (c.get_production_rates_ m (fun j =>
              if j.val ≤ m.val then reactive_species_ j i
              else c.advanceBackwardStep uninitialized i dt reactive_species_ j i))
            (c.get_loss_rates_ m (fun j =>
              if j.val ≤ m.val then reactive_species_ j i
              else c.advanceBackwardStep uninitialized i dt reactive_species_ j i))
            dt) ∧
    ∀ (c : BaseReactionRelaxation R 0) (uninitialized : LocalSpecies R 0)
      (i : Fin np) (dt : R) (reactive_species_ : ReactiveSpecies R 0 np),
      c.advanceBackwardStep uninitialized i dt reactive_species_ = reactive_species_ := by
  constructor
  · intro N c uninitialized i dt reactive_species_ m
    have hval : ∀ j : Fin N, c.advanceBackwardStep uninitialized i dt reactive_species_ j i
        = forLoopDown N (fun k l => c.advanceSpecies dt k l)
            (fun k => reactive_species_ k i) j := by
      intro j
      rw [advanceBackwardStep_apply, if_pos rfl]
    simp only [hval]
    exact (backward_loop_spec c dt N (fun k => reactive_species_ k i)).2 m m.isLt
  · intro c uninitialized i dt reactive_species_
    rfl

/-- C10 (inner flux accumulation): after `interaction(i, dt)` the change rate of
every diffusion `m` at `i` is the sum, over the neighbour records in use of `i`,
of `D_m(i, j_n, e_n) * (g_m[i] - g_m[j_n]) * (2 * (gradKernel . e_n) / r_n)` with
`g_m` the gradient-source field of `m`; the same value results from any other
prior change-rate content and any other `dt`. -/
theorem inner_flux_accumulation {R : Type} [Field R] {np d : Nat}
    (c : DiffusionRelaxationInner R np d) (i : Fin np) (dt : R)
    (s : DiffusionReactionParticles R np) (m : Nat) (hm : m < c.all_diffusions_size) :
    (c.interaction i dt s).diffusion_dt_ m i
      = ∑ n in Finset.range (c.inner_configuration_ i).current_size_,
          c.getInterParticleDiffusionCoff m i ((c.inner_configuration_ i).j_ n)
              ((c.inner_configuration_ i).e_ij_ n)
            * (s.all_species_ (c.gradient_species_indexes m) i
                - s.all_species_ (c.gradient_species_indexes m) ((c.inner_configuration_ i).j_ n))
            * (2 * Vecd.dot (c.getKernelGradient i ((c.inner_configuration_ i).j_ n)
                  ((c.inner_configuration_ i).dW_ijV_j_ n) ((c.inner_configuration_ i).e_ij_ n))
                ((c.inner_configuration_ i).e_ij_ n) / (c.inner_configuration_ i).r_ij_ n)
    ∧ ∀ (dt' : R) (s' : DiffusionReactionParticles R np),
        s'.all_species_ = s.all_species_ →
        (c.interaction i dt' s').diffusion_dt_ m i = (c.interaction i dt s).diffusion_dt_ m i := by
  have key : ∀ (dt : R) (s : DiffusionReactionParticles R np),
      (c.interaction i dt s).diffusion_dt_ m i = c.changeRate s.all_species_ m i := by
    intro dt s
    rw [(interaction_spec c i dt s).2.2 m i, if_pos ⟨hm, rfl⟩]
  refine ⟨key dt s, ?_⟩
  intro dt' s' hs
  rw [key dt' s', key dt s, hs]

/-- C10 at the two-particle configuration: the stale rate `7` of particle `0`
is replaced by the flux `1 * (1 - 3) * (2 * (-1/2) / 1) = 2`. -/
theorem inner_flux_accumulation_witness :
    (0 < sampleInner.all_diffusions_size) ∧
    (sampleInner.interaction 0 1 sampleData).diffusion_dt_ 0 0 = 2 :=
  ⟨by decide, (inner_flux_accumulation sampleInner 0 1 sampleData 0 (by decide)).1.trans
    (by simp [sampleInner, sampleData, sampleNeighborhood, Vecd.dot]; norm_num)⟩

/-- Two particle data records with the same three members are the same. -/
theorem particles_eq {R : Type} {np : Nat} (s s' : DiffusionReactionParticles R np)
    (h1 : s.all_species_ = s'.all_species_) (h2 : s.diffusion_dt_ = s'.diffusion_dt_)
    (h3 : s.diffusion_species_s_ = s'.diffusion_species_s_) : s = s' := by
  cases s
  cases s'
  simp only at h1 h2 h3
  subst h1 h2 h3
  rfl

/-- The diffusions that feed the field of diffusion `m` are `m` alone. -/
theorem filter_feed_eq_singleton {R : Type} {d : Nat} (c : BaseDiffusionRelaxation R d)
    (m : Nat) (hm : m < c.all_diffusions_size) :
    (Finset.range c.all_diffusions_size).filter
      (fun m' => c.diffusion_species_indexes m' = c.diffusion_species_indexes m) = {m} := by
  ext m'
  simp only [Finset.mem_filter, Finset.mem_range, Finset.mem_singleton]
  constructor
  · rintro ⟨h1, h2⟩
    exact c.diffusion_species_distinct m' m h1 hm h2
  · rintro rfl
    exact ⟨hm, rfl⟩

/-- C11 (forward-Euler commit): `update(i, dt)` sets the value of the diffusive
field of every diffusion `m` at `i` to `old_value + dt * accumulator[m][i]`,
and leaves the accumulators, the values at all other particles and every field
that no diffusion feeds unchanged; with `dt = 0` the particle data is
unchanged. -/
theorem forward_euler_commit {R : Type} [Field R] {np d : Nat}
    (c : DiffusionRelaxationInner R np d) (i : Fin np) (dt : R)
    (s : DiffusionReactionParticles R np) :
    (∀ m, m < c.all_diffusions_size →
      (c.update i dt s).all_species_ (c.diffusion_species_indexes m) i
        = s.all_species_ (c.diffusion_species_indexes m) i + dt * s.diffusion_dt_ m i) ∧
    (c.update i dt s).diffusion_dt_ = s.diffusion_dt_ ∧
    (∀ l i', i' ≠ i → (c.update i dt s).all_species_ l i' = s.all_species_ l i') ∧
    (∀ l, (∀ m, m < c.all_diffusions_size → c.diffusion_species_indexes m ≠ l) →
      (c.update i dt s).all_species_ l = s.all_species_ l) ∧
    c.update i 0 s = s := by
  refine ⟨?_, (updateSpeciesDiffusion_spec c i dt s).1, ?_, ?_, ?_⟩
  · intro m hm
    rw [(updateSpeciesDiffusion_spec c i dt s).2.2, if_pos rfl,
      filter_feed_eq_singleton c.toBaseDiffusionRelaxation m hm, Finset.sum_singleton]
  · intro l i' hi
    rw [(updateSpeciesDiffusion_spec c i dt s).2.2, if_neg hi, add_zero]
  · intro l hl
    funext i'
    rw [(updateSpeciesDiffusion_spec c i dt s).2.2]
    have hempty : (Finset.range c.all_diffusions_size).filter
        (fun m => c.diffusion_species_indexes m = l) = ∅ := by
      ext m
      simp only [Finset.mem_filter, Finset.mem_range, Finset.not_mem_empty, iff_false, not_and]
      exact fun hm => hl m hm
    rw [hempty, Finset.sum_empty, ite_self, add_zero]
  · obtain ⟨h1, h2, h3⟩ := updateSpeciesDiffusion_spec c i 0 s
    refine particles_eq _ _ ?_ h1 h2
    funext l i'
    rw [h3]
    simp

/-- C11 at the two-particle configuration: the stale rate `7` of particle `0` is
committed with `dt = 1/10`. -/
theorem forward_euler_commit_witness :
    (0 < sampleInner.all_diffusions_size) ∧
    (sampleInner.update 0 (1 / 10) sampleData).all_species_ 0 0 = 17 / 10 :=
  ⟨by decide, ((forward_euler_commit sampleInner 0 (1 / 10) sampleData).1 0 (by decide)).trans
    (by simp [sampleInner, sampleData]; norm_num)⟩

/-- C14 (interaction accumulates without committing): `interaction(i, dt)` leaves
the whole species store (and the snapshot buffers) unchanged, and of the
change-rate buffers only the entries `accumulator[m][i]` of the diffusions `m`
may differ from their old content. -/
theorem interaction_no_commit {R : Type} [Field R] {np d : Nat}
    (c : DiffusionRelaxationInner R np d) (i : Fin np) (dt : R)
    (s : DiffusionReactionParticles R np) :
    (c.interaction i dt s).all_species_ = s.all_species_ ∧
    (c.interaction i dt s).diffusion_species_s_ = s.diffusion_species_s_ ∧
    ∀ m i', (c.interaction i dt s).diffusion_dt_ m i'
      = if m < c.all_diffusions_size ∧ i' = i then (c.interaction i dt s).diffusion_dt_ m i
        else s.diffusion_dt_ m i' := by
  obtain ⟨h1, h2, h3⟩ := interaction_spec c i dt s
  refine ⟨h1, h2, ?_⟩
  intro m i'
  by_cases hc : m < c.all_diffusions_size ∧ i' = i
  · rw [if_pos hc, hc.2]
  · rw [if_neg hc, h3, if_neg hc]

/-- Two `interaction` calls commute. -/
theorem interaction_comm {R : Type} [Field R] {np d : Nat}
    (c : DiffusionRelaxationInner R np d) (dt : R) (i j : Fin np)
    (s : DiffusionReactionParticles R np) :
    c.interaction j dt (c.interaction i dt s) = c.interaction i dt (c.interaction j dt s) := by
  obtain ⟨a1, a2, a3⟩ := interaction_spec c i dt s
  obtain ⟨b1, b2, b3⟩ := interaction_spec c j dt s
  obtain ⟨c1, c2, c3⟩ := interaction_spec c j dt (c.interaction i dt s)
  obtain ⟨d1, d2, d3⟩ := interaction_spec c i dt (c.interaction j dt s)
  refine particles_eq _ _ ?_ ?_ ?_
  · rw [c1, a1, d1, b1]
  · funext m i'
    rw [c3, d3, a1, b1, a3, b3]
    by_cases hm : m < c.all_diffusions_size
    · by_cases hi : i' = i
      · by_cases hj : i' = j
        · rw [← hi, ← hj]
        · have hij : ¬ i = j := fun h => hj (hi.trans h)
          simp [hm, hi, hij]
      · by_cases hj : i' = j
        · have hji : ¬ j = i := fun h => hi (hj.trans h)
          simp [hm, hj, hji]
        · simp [hm, hi, hj]
    · simp [hm]
  · rw [c2, a2, d2, b2]

/-- Two `update` calls commute. -/
theorem update_comm {R : Type} [Field R] {np d : Nat}
    (c : DiffusionRelaxationInner R np d) (dt : R) (i j : Fin np)
    (s : DiffusionReactionParticles R np) :
    c.update j dt (c.update i dt s) = c.update i dt (c.update j dt s) := by
  obtain ⟨a1, a2, a3⟩ := updateSpeciesDiffusion_spec c i dt s
  obtain ⟨b1, b2, b3⟩ := updateSpeciesDiffusion_spec c j dt s
  obtain ⟨c1, c2, c3⟩ := updateSpeciesDiffusion_spec c j dt (c.update i dt s)
  obtain ⟨d1, d2, d3⟩ := updateSpeciesDiffusion_spec c i dt (c.update j dt s)
  refine particles_eq _ _ ?_ ?_ ?_
  · funext l i'
    rw [c3, d3, a1, b1, a3, b3]
    ring
  · rw [c1, a1, d1, b1]
  · rw [c2, a2, d2, b2]

/-- C15 (order independence within a phase): `interaction(i)` and
`interaction(j)` commute, `update(i, dt)` and `update(j, dt)` commute, and
therefore running either phase over the particles in any order (any
permutation of the particle indices) gives the result of the pass in ascending
order. -/
theorem order_independence {R : Type} [Field R] {np d : Nat}
    (c : DiffusionRelaxationInner R np d) (dt : R) :
    (∀ (i j : Fin np) (s : DiffusionReactionParticles R np),
      c.interaction j dt (c.interaction i dt s) = c.interaction i dt (c.interaction j dt s)) ∧
    (∀ (i j : Fin np) (s : DiffusionReactionParticles R np),
      c.update j dt (c.update i dt s) = c.update i dt (c.update j dt s)) ∧
    (∀ (l : List (Fin np)), l.Perm (List.finRange np) →
      ∀ s : DiffusionReactionParticles R np,
        l.foldl (fun s i => c.interaction i dt s) s
          = particle_for np (fun i s => c.interaction i dt s) s) ∧
    (∀ (l : List (Fin np)), l.Perm (List.finRange np) →
      ∀ s : DiffusionReactionParticles R np,
        l.foldl (fun s i => c.update i dt s) s
          = particle_for np (fun i s => c.update i dt s) s) := by
  refine ⟨interaction_comm c dt, update_comm c dt, ?_, ?_⟩
  · intro l hl s
    exact hl.foldl_eq' (fun x _ y _ z => interaction_comm c dt x y z) s
  · intro l hl s
    exact hl.foldl_eq' (fun x _ y _ z => update_comm c dt x y z) s

/-- C15 at the two-particle configuration: visiting particle `1` before
particle `0` gives the same flux pass. -/
theorem order_independence_witness :
    [(1 : Fin 2), 0].foldl (fun s i => sampleInner.interaction i (1 / 10) s) sampleData
      = particle_for 2 (fun i s => sampleInner.interaction i (1 / 10) s) sampleData :=
  (order_independence sampleInner (1 / 10)).2.2.1 [1, 0] (List.Perm.swap 0 1 []) sampleData

/-- C12 (amended): the Dirichlet contact pass does not zero the change-rate
accumulator: after `DiffusionRelaxationDirichlet::interaction(i, dt)` the
accumulator of every diffusion `m` at `i` is the value it held before the call
plus the sum of the contact-neighbour contributions. -/
theorem dirichlet_accumulates_onto_prior {R : Type} [Field R] {np d : Nat}
    (c : DiffusionRelaxationDirichlet R np d) (i : Fin np) (dt : R) (s : ContactData R np)
    (m : Nat) (hm : m < c.all_diffusions_size) :
    (c.interaction i dt s).particles_.diffusion_dt_ m i
      = s.particles_.diffusion_dt_ m i
        + ∑ k in Finset.range c.contact_configuration_size,
            ∑ n in Finset.range (c.contact_configuration_ k i).current_size_,
              c.contactFlux s.particles_.all_species_ s.contact_particles_ m i k n := by
  rw [(dirichlet_interaction_spec c i dt s).2.2.2 m i, if_pos ⟨hm, rfl⟩]
  rfl

/-- C12 (amended) at the sample contact configuration: the stale rate `7` stays
in the accumulator, the contact flux `3` is added to it. -/
theorem dirichlet_accumulates_onto_prior_witness :
    (0 < sampleDirichlet.all_diffusions_size) ∧
    (sampleDirichlet.interaction 0 1 sampleContactData).particles_.diffusion_dt_ 0 0 = 10 :=
  ⟨by decide, (dirichlet_accumulates_onto_prior sampleDirichlet 0 1 sampleContactData 0
    (by decide)).trans
    (by simp [DiffusionRelaxationDirichlet.contactFlux, sampleDirichlet, sampleInner,
          sampleContactData, sampleData, sampleContactNeighborhood, Vecd.dot]; norm_num)⟩

/-- C12 as stated fails: at the sample contact configuration the accumulator
after the Dirichlet `interaction` is `10`, while the sum of the contact
contributions alone is `3`. -/
theorem dirichlet_not_zeroed_counterexample :
    (sampleDirichlet.interaction 0 1 sampleContactData).particles_.diffusion_dt_ 0 0 = 10 ∧
    sampleDirichlet.contactRate sampleContactData.particles_.all_species_
      sampleContactData.contact_particles_ 0 0 sampleDirichlet.contact_configuration_size = 3 ∧
    (sampleDirichlet.interaction 0 1 sampleContactData).particles_.diffusion_dt_ 0 0
      ≠ sampleDirichlet.contactRate sampleContactData.particles_.all_species_
          sampleContactData.contact_particles_ 0 0 sampleDirichlet.contact_configuration_size := by
  have h1 : (sampleDirichlet.interaction 0 1 sampleContactData).particles_.diffusion_dt_ 0 0
      = 10 := by
    rw [(dirichlet_interaction_spec sampleDirichlet 0 1 sampleContactData).2.2.2 0 0]
    simp [DiffusionRelaxationDirichlet.contactRate, DiffusionRelaxationDirichlet.contactFlux,
      sampleDirichlet, sampleInner, sampleContactData, sampleData, sampleContactNeighborhood,
      Vecd.dot]
    norm_num
  have h2 : sampleDirichlet.contactRate sampleContactData.particles_.all_species_
      sampleContactData.contact_particles_ 0 0 sampleDirichlet.contact_configuration_size
      = 3 := by
    simp [DiffusionRelaxationDirichlet.contactRate, DiffusionRelaxationDirichlet.contactFlux,
      sampleDirichlet, sampleInner, sampleContactData, sampleData, sampleContactNeighborhood,
      Vecd.dot]
    norm_num
  refine ⟨h1, h2, ?_⟩
  rw [h1, h2]
  norm_num

/-- Where the gradient source of `m` is its own diffusive field, the flux term
of the code is the flux term of the specification. -/
theorem contactFlux_eq_gradientSource {R : Type} [Field R] {np d : Nat}
    (c : DiffusionRelaxationDirichlet R np d) (species : Nat → Fin np → R)
    (contact_species : Nat → Nat → Nat → R) (m : Nat) (i : Fin np) (k n : Nat)
    (hself : c.gradient_species_indexes m = c.diffusion_species_indexes m) :
    c.contactFlux species contact_species m i k n
      = c.gradientSourceContactFlux species contact_species m i k n := by
  unfold DiffusionRelaxationDirichlet.contactFlux
    DiffusionRelaxationDirichlet.gradientSourceContactFlux
  rw [hself]

/-- C13 at its failing input: the diffusion feeds field `0` (value `1` at the
particle) and has field `1` as gradient source (value `4` at the particle, `4`
in the contact body). The gradient-source difference is `0`, so the flux of the
claim is `0`; `DiffusionRelaxationDirichlet::interaction` leaves `3` in the
accumulator, the flux of the difference `1 - 4` of the diffusive field against
the contact field. -/
theorem dirichlet_flux_at_split_fields :
    (sampleSplitDirichlet.interaction 0 1 sampleSplitData).particles_.diffusion_dt_ 0 0 = 3 ∧
    sampleSplitData.particles_.diffusion_dt_ 0 0
      + ∑ k in Finset.range sampleSplitDirichlet.contact_configuration_size,
          ∑ n in Finset.range (sampleSplitDirichlet.contact_configuration_ k 0).current_size_,
            sampleSplitDirichlet.gradientSourceContactFlux sampleSplitData.particles_.all_species_
              sampleSplitData.contact_particles_ 0 0 k n = 0 := by
  constructor
  · rw [(dirichlet_interaction_spec sampleSplitDirichlet 0 1 sampleSplitData).2.2.2 0 0]
    simp [DiffusionRelaxationDirichlet.contactRate, DiffusionRelaxationDirichlet.contactFlux,
      sampleSplitDirichlet, sampleSplitData, sampleContactNeighborhood, Vecd.dot]
    norm_num
  · simp [DiffusionRelaxationDirichlet.gradientSourceContactFlux,
      sampleSplitDirichlet, sampleSplitData, sampleContactNeighborhood, Vecd.dot]

/-- C18 (combined inner and Dirichlet accumulation): running
`DiffusionRelaxationInner::interaction(i)` and then
`DiffusionRelaxationDirichlet::interaction(i)` on the same particle data leaves
`accumulator[m][i]` equal to the inner-neighbour sum of
`D * (g_m[i] - g_m[j]) * area_ij` plus the sum, over every contact body `k` and
every contact neighbour `j` of `i` in `k`, of
`D_m(i, j, e_ij) * (u_m[i] - c_{k,m}[j]) * area_ij` with `u_m` the diffusive field
of `m`: the Dirichlet pass adds to the value it finds. -/
theorem inner_then_dirichlet {R : Type} [Field R] {np d : Nat}
    (c_inner : DiffusionRelaxationInner R np d) (c_contact : DiffusionRelaxationDirichlet R np d)
    (i : Fin np) (dt : R) (s : ContactData R np) (m : Nat)
    (hm_inner : m < c_inner.all_diffusions_size) (hm_contact : m < c_contact.all_diffusions_size) :
    (c_contact.interaction i dt
        (ContactData.mk (c_inner.interaction i dt s.particles_) s.contact_particles_)
      ).particles_.diffusion_dt_ m i
      = ∑ n in Finset.range (c_inner.inner_configuration_ i).current_size_,
          c_inner.getInterParticleDiffusionCoff m i ((c_inner.inner_configuration_ i).j_ n)
              ((c_inner.inner_configuration_ i).e_ij_ n)
            * (s.particles_.all_species_ (c_inner.gradient_species_indexes m) i
                - s.particles_.all_species_ (c_inner.gradient_species_indexes m)
                    ((c_inner.inner_configuration_ i).j_ n))
            * c_inner.area i n
        + ∑ k in Finset.range c_contact.contact_configuration_size,
            ∑ n in Finset.range (c_contact.contact_configuration_ k i).current_size_,
              c_contact.getInterParticleDiffusionCoff m i ((c_contact.contact_configuration_ k i).j_ n)
                  ((c_contact.contact_configuration_ k i).e_ij_ n)
                * (s.particles_.all_species_ (c_contact.diffusion_species_indexes m) i
                    - s.contact_particles_ k (c_contact.contact_gradient_species_ k m)
                        ((c_contact.contact_configuration_ k i).j_ n))
                * (2 * Vecd.dot (c_contact.getKernelGradient i
                      ((c_contact.contact_configuration_ k i).j_ n)
                      ((c_contact.contact_configuration_ k i).dW_ijV_j_ n)
                      ((c_contact.contact_configuration_ k i).e_ij_ n))
                    ((c_contact.contact_configuration_ k i).e_ij_ n)
                    / (c_contact.contact_configuration_ k i).r_ij_ n) := by
  rw [(dirichlet_interaction_spec c_contact i dt _).2.2.2 m i, if_pos ⟨hm_contact, rfl⟩]
  simp only []
  rw [(interaction_spec c_inner i dt s.particles_).2.2 m i, if_pos ⟨hm_inner, rfl⟩,
    (interaction_spec c_inner i dt s.particles_).1]
  rfl

/-- C18 at the sample configurations: the inner flux `2` and the contact flux `3`
add up to `5`, whatever the accumulator held before. -/
theorem inner_then_dirichlet_witness :
    (0 < sampleInner.all_diffusions_size) ∧ (0 < sampleDirichlet.all_diffusions_size) ∧
    (sampleDirichlet.interaction 0 1
        (ContactData.mk (sampleInner.interaction 0 1 sampleContactData.particles_)
          sampleContactData.contact_particles_)).particles_.diffusion_dt_ 0 0 = 5 :=
  ⟨by decide, by decide,
    (inner_then_dirichlet sampleInner sampleDirichlet 0 1 sampleContactData 0 (by decide)
      (by decide)).trans
    (by simp [DiffusionRelaxationInner.area, sampleDirichlet, sampleInner, sampleContactData,
          sampleData, sampleContactNeighborhood, sampleNeighborhood, Vecd.dot]; norm_num)⟩

/-- With a uniform gradient source a plain inner step leaves the species store
unchanged. -/
theorem exec_all_species_of_uniform {R : Type} [Field R] {np d : Nat}
    (c : DiffusionRelaxationInner R np d) (dt : R) (s : DiffusionReactionParticles R np)
    (huniform : ∀ m, m < c.all_diffusions_size → ∀ i j : Fin np,
      s.all_species_ (c.gradient_species_indexes m) i
        = s.all_species_ (c.gradient_species_indexes m) j) :
    (c.exec dt s).all_species_ = s.all_species_ := by
  funext k i
  rw [(exec_spec c dt s).2.2 k i]
  have : ∑ m in (Finset.range c.all_diffusions_size).filter
      (fun m => c.diffusion_species_indexes m = k), dt * c.changeRate s.all_species_ m i = 0 := by
    apply Finset.sum_eq_zero
    intro m hm
    have hlt : m < c.all_diffusions_size := Finset.mem_range.mp (Finset.mem_filter.mp hm).1
    rw [changeRate_eq_zero_of_uniform c s.all_species_ m (huniform m hlt) i, mul_zero]
  rw [this, add_zero]

/-- C19 (RK2 preserves uniform states): if for every diffusion the
gradient-source field has the same value at all particles before the call,
then `DiffusionRelaxationRK2::exec(dt)` over an inner first stage leaves the
value of every diffusive field at every particle equal to its pre-step value,
for any neighbour records, coefficient function and `dt`. -/
theorem rk2_preserves_uniform {R : Type} [Field R] [CharZero R] {np d : Nat}
    (c : DiffusionRelaxationInner R np d) (dt : R) (s : DiffusionReactionParticles R np)
    (huniform : ∀ m, m < c.all_diffusions_size → ∀ i j : Fin np,
      s.all_species_ (c.gradient_species_indexes m) i
        = s.all_species_ (c.gradient_species_indexes m) j) :
    ∀ m, m < c.all_diffusions_size → ∀ i,
      (DiffusionRelaxationRK2.exec c dt s).all_species_ (c.diffusion_species_indexes m) i
        = s.all_species_ (c.diffusion_species_indexes m) i := by
  intro m hm i
  have huniq : ∀ m', m' < c.all_diffusions_size →
      c.diffusion_species_indexes m' = c.diffusion_species_indexes m → m' = m :=
    fun m' hm' h => c.diffusion_species_distinct m' m hm' hm h
  rw [(rk2_exec_spec c dt s m hm huniq i).2, exec_all_species_of_uniform c dt s huniform,
    changeRate_eq_zero_of_uniform c s.all_species_ m (huniform m hm) i]
  ring

/-- C19 at the two-particle configuration with the value `5` at both particles. -/
theorem rk2_preserves_uniform_witness :
    (DiffusionRelaxationRK2.exec sampleInner (1 / 10) sampleUniformData).all_species_
        (sampleInner.diffusion_species_indexes 0) 0
      = sampleUniformData.all_species_ (sampleInner.diffusion_species_indexes 0) 0 :=
  rk2_preserves_uniform sampleInner (1 / 10) sampleUniformData (fun _ _ _ _ => rfl) 0
    (by decide) 0

/-- C16 (reaction locality): `advanceForwardStep(i, dt)` and
`advanceBackwardStep(i, dt)` leave the reactive values of every particle other
than `i` unchanged, and two stores that agree on the reactive values at `i`
get the same new values at `i`, whatever the local array held before it was
loaded. -/
theorem reaction_locality {R : Type} {np N : Nat} (c : BaseReactionRelaxation R N)
    (i : Fin np) (dt : R) :
    (∀ (u : LocalSpecies R N) (rs : ReactiveSpecies R N np) (k : Fin N) (i' : Fin np),
      c.advanceForwardStep u i dt rs k i'
        = if i' = i then c.advanceForwardStep u i dt rs k i else rs k i') ∧
    (∀ (u : LocalSpecies R N) (rs : ReactiveSpecies R N np) (k : Fin N) (i' : Fin np),
      c.advanceBackwardStep u i dt rs k i'
        = if i' = i then c.advanceBackwardStep u i dt rs k i else rs k i') ∧
    (∀ (u u' : LocalSpecies R N) (rs rs' : ReactiveSpecies R N np),
      (∀ k, rs k i = rs' k i) →
      ∀ k, c.advanceForwardStep u i dt rs k i = c.advanceForwardStep u' i dt rs' k i) ∧
    (∀ (u u' : LocalSpecies R N) (rs rs' : ReactiveSpecies R N np),
      (∀ k, rs k i = rs' k i) →
      ∀ k, c.advanceBackwardStep u i dt rs k i = c.advanceBackwardStep u' i dt rs' k i) := by
  refine ⟨?_, ?_, ?_, ?_⟩
  · intro u rs k i'
    by_cases hi : i' = i
    · rw [if_pos hi, hi]
    · rw [if_neg hi, advanceForwardStep_apply, if_neg hi]
  · intro u rs k i'
    by_cases hi : i' = i
    · rw [if_pos hi, hi]
    · rw [if_neg hi, advanceBackwardStep_apply, if_neg hi]
  · intro u u' rs rs' h k
    have hx : (fun k => rs k i) = fun k => rs' k i := funext h
    rw [advanceForwardStep_apply, advanceForwardStep_apply, if_pos rfl, if_pos rfl, hx]
  · intro u u' rs rs' h k
    have hx : (fun k => rs k i) = fun k => rs' k i := funext h
    rw [advanceBackwardStep_apply, advanceBackwardStep_apply, if_pos rfl, if_pos rfl, hx]

/-- C16 at the sample reaction system: the values of the other particle and the
prior content of the local array do not reach the result at particle `0`. -/
theorem reaction_locality_witness :
    ∀ k, sampleReaction.advanceForwardStep (fun _ => 0) 0 1 (sampleReactive 7) k 0
      = sampleReaction.advanceForwardStep (fun _ => 99) 0 1 (sampleReactive 8) k 0 :=
  (reaction_locality sampleReaction (0 : Fin 2) 1).2.2.1 (fun _ => 0) (fun _ => 99)
    (sampleReactive 7) (sampleReactive 8) (fun _ => rfl)

/-- Peeling the first iteration off a counting loop. -/
theorem forLoop_succ_first {σ : Type} (n : Nat) (g : Nat → σ → σ) (s : σ) :
    forLoop (n + 1) g s = forLoop n (fun k => g (k + 1)) (g 0 s) := by
  induction n with
  | zero => rfl
  | succ n ih =>
    show g (n + 1) (forLoop (n + 1) g s) = g (n + 1) (forLoop n (fun k => g (k + 1)) (g 0 s))
    rw [ih]

/-- The descending loop runs the bodies `n - 1, ..., 0`: it is the counting loop
whose `k`-th iteration runs the body of index `n - (k + 1)`. -/
theorem forLoopDown_eq_forLoop {σ : Type} (n : Nat) (f : Nat → σ → σ) (s : σ) :
    forLoopDown n f s = forLoop n (fun k => f (n - (k + 1))) s := by
  induction n generalizing s with
  | zero => rfl
  | succ n ih =>
    rw [forLoop_succ_first]
    show forLoopDown n f (f n s) = _
    rw [ih]
    have hfun : (fun k => f (n - (k + 1))) = fun k => f (n + 1 - (k + 1 + 1)) := by
      funext k
      have hk : n - (k + 1) = n + 1 - (k + 1 + 1) := by omega
      rw [hk]
    rw [hfun]
    rfl

/-- Writing an entry and then reversing the array is writing the mirrored entry
of the reversed array. -/
theorem update_comp_rev {R : Type} {N : Nat} (w : Fin N → R) (t : Fin N) (v : R) :
    (fun j => Function.update w t v (Fin.rev j))
      = Function.update (fun j => w (Fin.rev j)) (Fin.rev t) v := by
  funext j
  by_cases hj : j = Fin.rev t
  · subst hj
    rw [Fin.rev_rev, Function.update_same, Function.update_same]
  · have hne : Fin.rev j ≠ t := by
      intro h
      apply hj
      rw [← h, Fin.rev_rev]
    rw [Function.update_noteq hj, Function.update_noteq hne]

/-- One species step of the given system at the mirrored index, on the
reversed array, is the reversal of the step of the reversed system. -/
theorem advanceSpecies_reversed {R : Type} {N : Nat} (c : BaseReactionRelaxation R N) (dt : R)
    (t : Nat) (ht : t < N) (w : LocalSpecies R N) :
    c.advanceSpecies dt (N - (t + 1)) (fun j => w (Fin.rev j))
      = fun j => c.reversed.advanceSpecies dt t w (Fin.rev j) := by
  have hlt : N - (t + 1) < N := by omega
  have hrev : Fin.rev (⟨t, ht⟩ : Fin N) = ⟨N - (t + 1), hlt⟩ := by
    apply Fin.ext
    simp [Fin.rev]
  have hrev' : Fin.rev (⟨N - (t + 1), hlt⟩ : Fin N) = ⟨t, ht⟩ := by
    rw [← hrev, Fin.rev_rev]
  unfold BaseReactionRelaxation.advanceSpecies
  rw [dif_pos hlt, dif_pos ht]
  simp only [BaseReactionRelaxation.reversed]
  rw [update_comp_rev, hrev, hrev']

/-- The descending species loop of the given system is the reversal of the
ascending species loop of the reversed system on the reversed array. -/
theorem backward_loop_eq_reversed_forward {R : Type} {N : Nat} (c : BaseReactionRelaxation R N)
    (dt : R) (x : LocalSpecies R N) (t : Nat) (ht : t ≤ N) :
    forLoop t (fun k l => c.advanceSpecies dt (N - (k + 1)) l) x
      = fun j => forLoop t (fun k l => c.reversed.advanceSpecies dt k l)
          (fun j => x (Fin.rev j)) (Fin.rev j) := by
  induction t with
  | zero =>
    funext j
    show x j = x (Fin.rev (Fin.rev j))
    rw [Fin.rev_rev]
  | succ t ih =>
    have ih' := ih (by omega)
    show c.advanceSpecies dt (N - (t + 1))
        (forLoop t (fun k l => c.advanceSpecies dt (N - (k + 1)) l) x) = _
    rw [ih']
    exact advanceSpecies_reversed c dt t (by omega) _

/-- C17 (backward sweep is the forward sweep of the index-reversed system):
`advanceBackwardStep` on a reaction model and a store produces the reversal of
what `advanceForwardStep` produces on the reversed model (species
`k' = N - 1 - k`, production and loss functions composed with the reversal of
the vector) started from the reversed store. -/
theorem backward_is_reversed_forward {R : Type} {np N : Nat} (c : BaseReactionRelaxation R N)
    (uninitialized uninitialized' : LocalSpecies R N) (i : Fin np) (dt : R)
    (reactive_species_ : ReactiveSpecies R N np) :
    c.advanceBackwardStep uninitialized i dt reactive_species_
      = fun k => c.reversed.advanceForwardStep uninitialized' i dt
          (fun k => reactive_species_ (Fin.rev k)) (Fin.rev k) := by
  funext k i'
  rw [advanceBackwardStep_apply, advanceForwardStep_apply]
  by_cases hi : i' = i
  · rw [if_pos hi, if_pos hi, forLoopDown_eq_forLoop,
      backward_loop_eq_reversed_forward c dt _ N (le_refl N)]
  · rw [if_neg hi, if_neg hi, Fin.rev_rev]

/-- A contact body loop in which every body appends one value. -/
theorem forLoopM_append {α β : Type} (nc : Nat) (g : Nat → Option β) (f : Nat → β → α)
    (v : Nat → β) (hg : ∀ k, k < nc → g k = some (v k)) (table : Nat → List α) :
    forLoopM nc (fun k table =>
        (g k).map (fun x => Function.update table k (table k ++ [f k x]))) table
      = some (fun k => if k < nc then table k ++ [f k (v k)] else table k) := by
  induction nc with
  | zero => simp [forLoopM]
  | succ nc ih =>
    simp only [forLoopM]
    rw [ih (fun k hk => hg k (by omega)), Option.some_bind, hg nc (by omega), Option.map_some']
    congr 1
    funext k
    by_cases hk : k = nc
    · subst hk; simp
    · rw [Function.update_noteq hk]
      by_cases hlt : k < nc
      · have : k < nc + 1 := by omega
        simp [hlt, this]
      · have : ¬ k < nc + 1 := by omega
        simp [hlt, this]

/-- The constructor of `DiffusionRelaxationDirichlet`, run for the first `n`
diffusions over a name table that holds the gradient-source names. -/
theorem dirichlet_construct_loop (p : ContactSetup) (names : Nat → List String)
    (hnames : ∀ k, k < p.contact_particles_size → ∀ m, m < p.all_diffusions_size →
      (names k)[m]? = some (p.all_species_names (p.gradient_species_index_ m)))
    (n : Nat) (hn : n ≤ p.all_diffusions_size) :
    forLoopM n (fun m table =>
        forLoopM p.contact_particles_size (fun k table =>
          ((names k)[m]?).map (fun contact_species_names_k_m =>
            Function.update table k
              (table k ++ [(p.AllSpeciesIndexMap k contact_species_names_k_m).getD 0])))
          table) (fun _ => [])
      = some (fun k => if k < p.contact_particles_size then
          (List.range n).map (fun m =>
            (p.AllSpeciesIndexMap k (p.all_species_names (p.gradient_species_index_ m))).getD 0)
        else []) := by
  induction n with
  | zero => simp [forLoopM]
  | succ n ih =>
    simp only [forLoopM]
    rw [ih (by omega), Option.some_bind]
    rw [forLoopM_append p.contact_particles_size (fun k => (names k)[n]?)
      (fun k name => (p.AllSpeciesIndexMap k name).getD 0)
      (fun _ => p.all_species_names (p.gradient_species_index_ n))
      (fun k hk => hnames k hk n (by omega))]
    congr 1
    funext k
    by_cases hk : k < p.contact_particles_size
    · simp [hk, List.range_succ]
    · simp [hk]

/-- C20 (contact name table is well-formed): whenever the constructor of
`BaseDiffusionRelaxationContact` completes, for every contact body `k` the
vector `contact_gradient_species_names_[k]` has exactly as many entries as there
are diffusions, and its entry `m` is the name of the gradient-source species of
diffusion `m`, which is a key of the species index map of body `k`.
Consequently the constructor of `DiffusionRelaxationDirichlet` reads
`contact_gradient_species_names_[k][m]` within bounds, finds the name in the
map, and `contact_gradient_species_[k][m]` refers to the field of that name in
contact body `k`. -/
theorem contact_name_table_well_formed (p : ContactSetup) (names : Nat → List String)
    (h : BaseDiffusionRelaxationContact.construct p = some names) :
    (∀ k, k < p.contact_particles_size →
      (names k).length = p.all_diffusions_size ∧
      ∀ m, m < p.all_diffusions_size →
        (names k)[m]? = some (p.all_species_names (p.gradient_species_index_ m)) ∧
        (p.AllSpeciesIndexMap k
          (p.all_species_names (p.gradient_species_index_ m))).isSome = true) ∧
    ∃ table, DiffusionRelaxationDirichlet.construct p names = some table ∧
      ∀ k, k < p.contact_particles_size →
        (table k).length = p.all_diffusions_size ∧
        ∀ m, m < p.all_diffusions_size →
          ∃ index, p.AllSpeciesIndexMap k
              (p.all_species_names (p.gradient_species_index_ m)) = some index ∧
            (table k)[m]? = some index := by
  have hall : ∀ m, m < p.all_diffusions_size → ∀ k, k < p.contact_particles_size →
      (p.AllSpeciesIndexMap k
        (p.all_species_names (p.gradient_species_index_ m))).isSome = true := by
    intro m hm k hk
    rw [Option.isSome_iff_ne_none]
    intro hn
    have hnone := (construct_loop p p.all_diffusions_size).2 ⟨m, hm, k, hk, hn⟩
    unfold BaseDiffusionRelaxationContact.construct at h
    rw [h] at hnone
    exact Option.noConfusion hnone
  have hsome := (construct_loop p p.all_diffusions_size).1 hall
  have hnames : names = fun k => if k < p.contact_particles_size then
      (List.range p.all_diffusions_size).map
        (fun m => p.all_species_names (p.gradient_species_index_ m)) else [] := by
    unfold BaseDiffusionRelaxationContact.construct at h
    rw [h] at hsome
    exact Option.some.inj hsome
  have hentry : ∀ k, k < p.contact_particles_size → ∀ m, m < p.all_diffusions_size →
      (names k)[m]? = some (p.all_species_names (p.gradient_species_index_ m)) := by
    intro k hk m hm
    rw [hnames]
    simp [hk, hm]
  refine ⟨?_, ?_⟩
  · intro k hk
    refine ⟨?_, fun m hm => ⟨hentry k hk m hm, hall m hm k hk⟩⟩
    rw [hnames]
    simp [hk]
  · refine ⟨_, dirichlet_construct_loop p names hentry p.all_diffusions_size (le_refl _), ?_⟩
    intro k hk
    refine ⟨by simp [hk], ?_⟩
    intro m hm
    obtain ⟨index, hindex⟩ := Option.isSome_iff_exists.mp (hall m hm k hk)
    refine ⟨index, hindex, ?_⟩
    simp [hk, hm, hindex]

/-- The constructor completes on the sample contact setup. -/
theorem sampleSetup_construct :
    BaseDiffusionRelaxationContact.construct sampleSetup
      = some (fun k => if k < 2 then ["Phi", "Psi"] else []) := by
  have h := (construct_loop sampleSetup sampleSetup.all_diffusions_size).1 (by
    intro m hm k _
    have hm' : m < 2 := hm
    interval_cases m <;> simp [sampleSetup])
  exact h

/-- C20 at the sample contact setup: both contact bodies get the name vector
`Phi`, `Psi`. -/
theorem contact_name_table_well_formed_witness :
    BaseDiffusionRelaxationContact.construct sampleSetup
      = some (fun k => if k < 2 then ["Phi", "Psi"] else []) ∧
    ∀ k, k < sampleSetup.contact_particles_size →
      ((fun k => if k < 2 then ["Phi", "Psi"] else []) k : List String).length
        = sampleSetup.all_diffusions_size ∧
      ∀ m, m < sampleSetup.all_diffusions_size →
        ((fun k => if k < 2 then ["Phi", "Psi"] else []) k : List String)[m]?
          = some (sampleSetup.all_species_names (sampleSetup.gradient_species_index_ m)) ∧
        (sampleSetup.AllSpeciesIndexMap k
          (sampleSetup.all_species_names (sampleSetup.gradient_species_index_ m))).isSome = true :=
  ⟨sampleSetup_construct,
    (contact_name_table_well_formed sampleSetup _ sampleSetup_construct).1⟩

end SPH
